import Mathlib

/-!
# Verification of the trial-analysis helper (target discovery and classification pipeline)

This file gives a shallow embedding, in Lean 4, of the target-discovery and
classification pipeline of `trial_analysis_helper.py`, together with theorems
settling the specification claims about it.

The Python code works by applying regular expressions (module `re`) to free-text
trial fields.  We therefore first build a small executable model of the fragment
of Python's regex language the source uses: literal characters, character
classes (`\d`, `\s`, `[A-Za-z]`, `[-\s]`, ...), concatenation, alternation
(leftmost branch preferred), greedy `?`/`*`/`+`/`{2,}`, the anchors `^` and
`\b`, and a single capturing group.  The matcher `mrun` returns the list of all
possible outcomes of matching a pattern at the start of a string, in Python's
backtracking preference order (greedy quantifiers longest-first, alternation
left-first), so that the *head* of the list at the first matching position is
exactly the match Python's `re` engine commits to.  Recursion is controlled by
an explicit fuel parameter; `bigFuel` is a generous bound on the recursion
depth actually needed (depth is bounded by pattern size plus text length).

Each regex literal of the source is then transliterated into a `Regex` value,
and each Python function into a Lean function over these.  Strings are modelled
as `List Char` internally (`String` at the API), with ASCII (plus the Greek
α/β used by the source patterns) case mapping.
-/

set_option maxRecDepth 20000

/-! ## Character helpers (Python `str` semantics, ASCII plus α/β) -/

/-- Python whitespace characters recognised by `\s` and `str.strip`/`str.split`
(ASCII fragment). -/
def isPySpace (c : Char) : Bool :=
  c == ' ' || c == '\t' || c == '\n' || c == '\r' || c == '\x0b' || c == '\x0c'

/-- ASCII digit. -/
def isDigitC (c : Char) : Bool := '0' ≤ c && c ≤ '9'

/-- ASCII letter (the source's `[A-Za-z]`). -/
def isAlphaC (c : Char) : Bool := ('A' ≤ c && c ≤ 'Z') || ('a' ≤ c && c ≤ 'z')

/-- Regex word character `\w` (ASCII fragment), used by `\b`. -/
def isWordC (c : Char) : Bool := isAlphaC c || isDigitC c || c == '_'

/-- Python `str.upper` on a single character (ASCII letters plus the Greek
α/β appearing in the source's patterns). -/
def pyUpperChar (c : Char) : Char :=
  match c with
  | 'a' => 'A' | 'b' => 'B' | 'c' => 'C' | 'd' => 'D' | 'e' => 'E' | 'f' => 'F'
  | 'g' => 'G' | 'h' => 'H' | 'i' => 'I' | 'j' => 'J' | 'k' => 'K' | 'l' => 'L'
  | 'm' => 'M' | 'n' => 'N' | 'o' => 'O' | 'p' => 'P' | 'q' => 'Q' | 'r' => 'R'
  | 's' => 'S' | 't' => 'T' | 'u' => 'U' | 'v' => 'V' | 'w' => 'W' | 'x' => 'X'
  | 'y' => 'Y' | 'z' => 'Z' | 'α' => 'Α' | 'β' => 'Β'
  | other => other

/-- Python `str.lower` on a single character (ASCII letters plus Greek Α/Β). -/
def pyLowerChar (c : Char) : Char :=
  match c with
  | 'A' => 'a' | 'B' => 'b' | 'C' => 'c' | 'D' => 'd' | 'E' => 'e' | 'F' => 'f'
  | 'G' => 'g' | 'H' => 'h' | 'I' => 'i' | 'J' => 'j' | 'K' => 'k' | 'L' => 'l'
  | 'M' => 'm' | 'N' => 'n' | 'O' => 'o' | 'P' => 'p' | 'Q' => 'q' | 'R' => 'r'
  | 'S' => 's' | 'T' => 't' | 'U' => 'u' | 'V' => 'v' | 'W' => 'w' | 'X' => 'x'
  | 'Y' => 'y' | 'Z' => 'z' | 'Α' => 'α' | 'Β' => 'β'
  | other => other

/-- Python `str.upper` over a character list. -/
def pyUpperL (s : List Char) : List Char := s.map pyUpperChar

/-- Python `str.lower` over a character list. -/
def pyLowerL (s : List Char) : List Char := s.map pyLowerChar

/-- Python `str.strip()`: remove leading and trailing whitespace. -/
def pyStrip (s : List Char) : List Char :=
  ((s.dropWhile isPySpace).reverse.dropWhile isPySpace).reverse

/-- Python `str.split()` (no argument): split on whitespace runs, no empties. -/
def pySplit (s : List Char) : List (List Char) :=
  match s with
  | [] => []
  | c :: rest =>
    if isPySpace c then pySplit rest
    else
      match pySplit rest with
      | [] => [[c]]
      | w :: ws =>
        match rest with
        | [] => [[c]]
        | d :: _ => if isPySpace d then [c] :: w :: ws else (c :: w) :: ws

/-- Python substring test `needle in hay`. -/
def hasSub (n : List Char) (h : List Char) : Bool :=
  n.isPrefixOf h ||
    match h with
    | [] => false
    | _ :: t => hasSub n t

/-- `re.sub(r'\s+', ' ', s)`: collapse every whitespace run to one space. -/
def collapseWs : List Char → List Char
  | [] => []
  | [c] => [if isPySpace c then ' ' else c]
  | c :: d :: rest =>
    if isPySpace c && isPySpace d then collapseWs (d :: rest)
    else (if isPySpace c then ' ' else c) :: collapseWs (d :: rest)

/-- One scan step of `re.sub(r'\s*-\s*', '-', s)` with explicit fuel
(the replaced region always contains the hyphen, so `s.length` fuel suffices).
A match of `\s*-\s*` starts at the current position exactly when the
whitespace run there is followed by a hyphen; the replacement emits one hyphen
and the scan resumes after the trailing whitespace run. -/
def tightenHyphensAux : Nat → List Char → List Char
  | 0, s => s
  | _ + 1, [] => []
  | fuel + 1, c :: rest =>
    let afterWs := (c :: rest).drop ((c :: rest).takeWhile isPySpace).length
    if afterWs.head? = some '-' then
      '-' :: tightenHyphensAux fuel ((afterWs.drop 1).dropWhile isPySpace)
    else c :: tightenHyphensAux fuel rest

/-- `re.sub(r'\s*-\s*', '-', s)`: tighten spaces around hyphens. -/
def tightenHyphens (s : List Char) : List Char :=
  tightenHyphensAux (s.length + 1) s

/-! ## A small model of Python's `re` fragment used by the source -/

/-- The character classes occurring in the source's patterns. -/
inductive CharClass where
  /-- `\d` -/
  | digit : CharClass
  /-- `\s` -/
  | wsp : CharClass
  /-- `[A-Za-z]` -/
  | alphaAB : CharClass
  /-- `[A-Z]` -/
  | upperAZ : CharClass
  /-- `[a-z]` -/
  | lowerAZ : CharClass
  /-- `[-\s]` -/
  | sepSp : CharClass
  /-- `[^\n,;]` -/
  | noNlCommaSemi : CharClass
  /-- `.` (any character except newline) -/
  | anyDot : CharClass
  /-- an explicit set such as `[L1]` or `[R]` -/
  | oneOf (cs : List Char) : CharClass
deriving DecidableEq

/-- Does a character class accept a character (case-sensitively)? -/
def CharClass.test : CharClass → Char → Bool
  | .digit, c => isDigitC c
  | .wsp, c => isPySpace c
  | .alphaAB, c => isAlphaC c
  | .upperAZ, c => 'A' ≤ c && c ≤ 'Z'
  | .lowerAZ, c => 'a' ≤ c && c ≤ 'z'
  | .sepSp, c => c == '-' || isPySpace c
  | .noNlCommaSemi, c => !(c == '\n' || c == ',' || c == ';')
  | .anyDot, c => c != '\n'
  | .oneOf cs, c => cs.contains c

/-- Class test under an optional `re.IGNORECASE` flag: with the flag, the
class also accepts the other-case variant of the character. -/
def clsTest (ci : Bool) (cl : CharClass) (c : Char) : Bool :=
  cl.test c || (ci && (cl.test (pyLowerChar c) || cl.test (pyUpperChar c)))

/-- Literal-character test under an optional `re.IGNORECASE` flag. -/
def chrTest (ci : Bool) (pc : Char) (c : Char) : Bool :=
  c == pc || (ci && pyLowerChar c == pyLowerChar pc)

/-- Abstract syntax for the regex fragment used by the source.  `bol` is `^`
(matches only at the start of the text, no MULTILINE flag is used), `wb` is
`\b`, and `group` is the single capturing group a source pattern may have. -/
inductive Regex where
  | eps : Regex
  | chr (c : Char) : Regex
  | cls (cl : CharClass) : Regex
  | seq (a b : Regex) : Regex
  | alt (a b : Regex) : Regex
  | star (r : Regex) : Regex
  | group (r : Regex) : Regex
  | bol : Regex
  | wb : Regex
deriving DecidableEq

/-- A literal character list as a regex. -/
def Regex.ofStrL (l : List Char) : Regex :=
  l.foldr (fun c acc => .seq (.chr c) acc) .eps

/-- A literal string as a regex. -/
def Regex.ofStr (s : String) : Regex := Regex.ofStrL s.toList

/-- Greedy `r?`. -/
def Regex.opt (r : Regex) : Regex := .alt r .eps

/-- Greedy `r+`. -/
def Regex.plus (r : Regex) : Regex := .seq r (.star r)

/-- Greedy `r{2,}`. -/
def Regex.rep2 (r : Regex) : Regex := .seq r (.plus r)

/-- A word-bounded literal `\b w \b` (frequently used for keyword checks). -/
def Regex.boundedLit (s : String) : Regex := .seq .wb (.seq (.ofStr s) .wb)

/-- Node count of a pattern (used to size the fuel). -/
def Regex.size : Regex → Nat
  | .eps | .bol | .wb | .chr _ | .cls _ => 1
  | .seq a b => a.size + b.size + 1
  | .alt a b => a.size + b.size + 1
  | .star r => r.size + 1
  | .group r => r.size + 1

/-- One outcome of matching a pattern at the start of a text: the remaining
text, the character immediately before it (for `\b`/`^` context), and the
content of the capturing group if one participated. -/
structure MOut where
  rem : List Char
  pc : Option Char
  cap : Option (List Char)
deriving DecidableEq

/-- Word-character test on the optional context character (absent context,
i.e. start or end of text, counts as a non-word position). -/
def isWordO : Option Char → Bool
  | none => false
  | some c => isWordC c

/-- All outcomes of matching pattern `re` at the start of `s`, in Python's
backtracking preference order: the head of the final list is the match
Python's engine commits to.  `pv` is the character just before `s` (`none` at
the true start of the text); `fuel` bounds the recursion depth. -/
def mrun (ci : Bool) : Nat → Regex → Option Char → List Char → List MOut
  | 0, _, _, _ => []
  | fuel + 1, re, pv, s =>
    match re with
    | .eps => [⟨s, pv, none⟩]
    | .bol => if pv.isNone then [⟨s, pv, none⟩] else []
    | .wb => if isWordO pv != isWordO s.head? then [⟨s, pv, none⟩] else []
    | .chr c =>
      match s with
      | [] => []
      | a :: rest => if chrTest ci c a then [⟨rest, some a, none⟩] else []
    | .cls cl =>
      match s with
      | [] => []
      | a :: rest => if clsTest ci cl a then [⟨rest, some a, none⟩] else []
    | .alt a b => mrun ci fuel a pv s ++ mrun ci fuel b pv s
    | .seq a b =>
      (mrun ci fuel a pv s).flatMap fun o =>
        (mrun ci fuel b o.pc o.rem).map fun o2 => ⟨o2.rem, o2.pc, o2.cap <|> o.cap⟩
    | .group r =>
      (mrun ci fuel r pv s).map fun o => ⟨o.rem, o.pc, some (s.take (s.length - o.rem.length))⟩
    | .star r =>
      ((mrun ci fuel r pv s).filter fun o => o.rem.length < s.length).flatMap
        (fun o => (mrun ci fuel (.star r) o.pc o.rem).map
          fun o2 => ⟨o2.rem, o2.pc, o2.cap <|> o.cap⟩)
      ++ [⟨s, pv, none⟩]

/-- A generous bound on the matcher's recursion depth for pattern `r` on text
`s` (depth is bounded by pattern size plus consumed characters). -/
def bigFuel (r : Regex) (s : List Char) : Nat := 2 * (r.size + s.length) + 64

/-- Does pattern `r` match at the start of `s` (Python `re.match`, as a
boolean)? -/
def reMatchB (ci : Bool) (r : Regex) (s : List Char) : Bool :=
  !(mrun ci (bigFuel r s) r none s).isEmpty

/-- Scan of `re.search` (boolean): try the pattern at every position. -/
def searchAux (ci : Bool) (fuel : Nat) (r : Regex) : Option Char → List Char → Bool
  | pv, [] => !(mrun ci fuel r pv []).isEmpty
  | pv, c :: rest => !(mrun ci fuel r pv (c :: rest)).isEmpty || searchAux ci fuel r (some c) rest

/-- Python `re.search(r, s)` as a boolean. -/
def reSearchB (ci : Bool) (r : Regex) (s : List Char) : Bool :=
  searchAux ci (bigFuel r s) r none s

/-- Scan of `re.search` returning the capturing group of the first match. -/
def searchGroupAux (ci : Bool) (r : Regex) : Option Char → List Char → Option (List Char)
  | pv, [] =>
    match (mrun ci (bigFuel r []) r pv []).head? with
    | some o => some (o.cap.getD [])
    | none => none
  | pv, c :: rest =>
    match (mrun ci (bigFuel r (c :: rest)) r pv (c :: rest)).head? with
    | some o => some (o.cap.getD [])
    | none => searchGroupAux ci r (some c) rest

/-- Python `re.search(r, s)` returning `group(1)` of the first match (or
`none` when there is no match). -/
def reSearchGroup (ci : Bool) (r : Regex) (s : List Char) : Option (List Char) :=
  searchGroupAux ci r none s

/-- Scan of `re.findall` for a pattern with one group: emit the group of each
non-overlapping match, resuming after the matched text (stepping one character
after an empty match), left to right. -/
def findallAux (ci : Bool) (r : Regex) : Nat → Option Char → List Char → List (List Char)
  | 0, _, _ => []
  | fuel + 1, pv, s =>
    match (mrun ci (bigFuel r s) r pv s).head? with
    | some o =>
      o.cap.getD [] ::
        (if o.rem.length < s.length then findallAux ci r fuel o.pc o.rem
         else
           match s with
           | [] => []
           | c :: rest => findallAux ci r fuel (some c) rest)
    | none =>
      match s with
      | [] => []
      | c :: rest => findallAux ci r fuel (some c) rest

/-- Python `re.findall(r, s)` for a pattern with one capturing group. -/
def reFindall (ci : Bool) (r : Regex) (s : List Char) : List (List Char) :=
  findallAux ci r (s.length + 1) none s

/-! ## Transliteration of `trial_analysis_helper.py` -/

/-- Concatenation of a list of patterns (right-nested `seq`). -/
def Regex.cat (l : List Regex) : Regex := l.foldr .seq .eps

/-- `[-\s]?` -/
def sepOpt : Regex := Regex.opt (.cls .sepSp)

/-- `\d+` -/
def digits1 : Regex := Regex.plus (.cls .digit)

/-- `\d*` -/
def digits0 : Regex := Regex.star (.cls .digit)

/-- `[A-Za-z]*` -/
def alphas0 : Regex := Regex.star (.cls .alphaAB)

/-- `[A-Za-z]{2,}` -/
def alpha2 : Regex := Regex.rep2 (.cls .alphaAB)

/-- The noise-word set of `is_valid_target` (source lines 37-42). -/
def noiseWords : List (List Char) :=
  ["BODY", "INJECTION", "MONOCLONAL", "HUMANIZED", "RECOMBINANT",
   "ANTIBODY", "PROTEIN", "THERAPY", "TREATMENT", "DRUG", "AGENT",
   "ACTIVITY", "TARGETING", "AGAINST", "FUSION", "RECEPTOR ALPHA",
   "CHARACTERISTICS", "AND", "THE", "OF", "IN", "ON", "AT"].map String.toList

/-- The interleukin pattern `^IL[-\s]?\d+` (source line 60). -/
def ilValidPat : Regex := .cat [.bol, .ofStr "IL", sepOpt, digits1]

/-- The PD pattern `^PD[-\s]?[L1]?\d*` (source line 64): everything after the
literal `PD` is optional. -/
def pdValidPat : Regex :=
  .cat [.bol, .ofStr "PD", sepOpt, .opt (.cls (.oneOf ['L', '1'])), digits0]

/-- The `valid_patterns` list of `is_valid_target` (source lines 59-82),
pattern by pattern.  The tenth entry transliterates the two adjacent string
literals `r'^VASCULAR ENDOTHELIAL'` and `r'^EGFR'` (source lines 69-70), which
the missing comma joins into the single pattern `^VASCULAR ENDOTHELIAL^EGFR`
containing a mid-pattern `^`. -/
def validPatterns : List Regex :=
  [ilValidPat,
   .cat [.bol, .ofStr "INTERLEUKIN", sepOpt, digits1],
   .cat [.bol, .ofStr "TNF"],
   .cat [.bol, .ofStr "TUMOR NECROSIS FACTOR"],
   pdValidPat,
   .cat [.bol, .ofStr "PROGRAMMED DEATH"],
   .cat [.bol, .ofStr "CD", digits1],
   .cat [.bol, .ofStr "HER", sepOpt, .cls .digit],
   .cat [.bol, .ofStr "VEGF"],
   .cat [.bol, .ofStr "VASCULAR ENDOTHELIAL", .bol, .ofStr "EGFR"],
   .cat [.bol, .ofStr "EPIDERMAL GROWTH FACTOR"],
   .cat [.bol, .ofStr "HUMAN EPIDERMAL"],
   .cat [.bol, .ofStr "BCMA"],
   .cat [.bol, .ofStr "CTLA"],
   .cat [.bol, .ofStr "JAK"],
   .cat [.bol, .ofStr "BTK"],
   .cat [.bol, .ofStr "PCSK", .cls .digit],
   .cat [.bol, .ofStr "CGRP"],
   .cat [.bol, .ofStr "GLP"],
   .cat [.bol, .ofStr "RANKL"],
   .ofStr "ERYTHROPOIETIN",
   .cat [.bol, .ofStr "BDCA", digits1],
   .cat [.bol, .ofStr "TACI", .wb],
   .cat [.bol, .ofStr "BAFF"],
   .cat [.bol, .ofStr "APRIL", .wb],
   .cat [.bol, .ofStr "TIGIT", .wb],
   .cat [.bol, .ofStr "LAG", sepOpt, digits1]]

/-- `is_valid_target` (source lines 24-84) over a character list. -/
def isValidTargetL (target0 : List Char) : Bool :=
  let target := pyStrip (pyUpperL target0)
  if noiseWords.contains target then false
  else
    let words := pySplit target
    if words.length > 1 &&
        decide (words.length - 1 ≤ words.countP fun w => noiseWords.contains w) then false
    else if target.length < 2 || target.length > 30 then false
    else validPatterns.any fun p => reMatchB false p target

/-- `is_valid_target` on a `String`. -/
def is_valid_target (target : String) : Bool := isValidTargetL target.toList

/-- A trial record: `title`, `objective`, `treatment_plan` free-text fields
(missing fields are the empty string). -/
structure Trial where
  title : String
  objective : String
  treatment_plan : String
deriving DecidableEq

/-- `f"{title} {objective} {treatment_plan}"`. -/
def combinedText (t : Trial) : List Char :=
  t.title.toList ++ (' ' :: t.objective.toList) ++ (' ' :: t.treatment_plan.toList)

/-- Qualifier alternation of discovery pattern 1: `(?:alpha|beta|receptor|α|β)`. -/
def qualAlts1 : Regex :=
  .alt (.ofStr "alpha") (.alt (.ofStr "beta") (.alt (.ofStr "receptor")
    (.alt (.chr 'α') (.chr 'β'))))

/-- Discovery pattern 1 (source line 113):
`anti[-\s]?([A-Za-z]{2,}[-\s]?\d*[A-Za-z]*(?:\s+(?:alpha|beta|receptor|α|β))?)`. -/
def discP1 : Regex :=
  .cat [.ofStr "anti", sepOpt,
    .group (.cat [alpha2, sepOpt, digits0, alphas0,
      .opt (.cat [.plus (.cls .wsp), qualAlts1])])]

/-- Qualifier alternation of discovery pattern 2: `(?:alpha|beta|α|β)`. -/
def qualAlts2 : Regex :=
  .alt (.ofStr "alpha") (.alt (.ofStr "beta") (.alt (.chr 'α') (.chr 'β')))

/-- Discovery pattern 2 (source line 122):
`([A-Za-z]{2,}[-\s]?\d*[A-Za-z]*(?:\s+(?:alpha|beta|α|β))?)\s+(?:inhibit(?:or|ion)|antagonist|blocker)`. -/
def discP2 : Regex :=
  .cat [.group (.cat [alpha2, sepOpt, digits0, alphas0,
      .opt (.cat [.plus (.cls .wsp), qualAlts2])]),
    .plus (.cls .wsp),
    .alt (.seq (.ofStr "inhibit") (.alt (.ofStr "or") (.ofStr "ion")))
      (.alt (.ofStr "antagonist") (.ofStr "blocker"))]

/-- Discovery pattern 3 (source line 131):
`targeting\s+([A-Za-z]{2,}[-\s]?\d*[A-Za-z]*)`. -/
def discP3 : Regex :=
  .cat [.ofStr "targeting", .plus (.cls .wsp),
    .group (.cat [alpha2, sepOpt, digits0, alphas0])]

/-- Body alternation of discovery pattern 4 (source line 139), in source order. -/
def discP4alts : Regex :=
  .alt (.cat [.opt (.ofStr "rh"), .ofStr "IL", sepOpt, digits1, alphas0])
  (.alt (.cat [.ofStr "TNF", sepOpt, .opt (.alt (.ofStr "alpha") (.chr 'α'))])
  (.alt (.cat [.ofStr "PD", sepOpt, .opt (.cls (.oneOf ['L'])), .cls .digit])
  (.alt (.cat [.ofStr "CD", digits1])
  (.alt (.cat [.ofStr "HER", sepOpt, .cls .digit])
  (.alt (.cat [.ofStr "VEGF", .opt (.cls (.oneOf ['R']))])
  (.alt (.ofStr "EGFR")
  (.alt (.ofStr "BCMA")
  (.alt (.cat [.ofStr "CTLA", sepOpt, .cls .digit])
  (.alt (.cat [.ofStr "JAK", sepOpt, digits0])
  (.alt (.ofStr "BTK")
  (.alt (.cat [.ofStr "PCSK", .cls .digit])
  (.alt (.ofStr "CGRP")
  (.alt (.cat [.ofStr "GLP", sepOpt, .cls .digit])
  (.ofStr "RANKL"))))))))))))))

/-- Discovery pattern 4 (source line 139): standalone biological codes,
word-bounded. -/
def discP4 : Regex := .cat [.wb, .group discP4alts, .wb]

/-- Body alternation of discovery pattern 5 (source line 146), in source order. -/
def discP5alts : Regex :=
  .alt (.ofStr "erythropoietin")
  (.alt (.ofStr "interferon")
  (.alt (.ofStr "insulin")
  (.alt (.cat [.ofStr "tumor necrosis factor", sepOpt,
      .opt (.alt (.ofStr "alpha") (.chr 'α'))])
  (.alt (.ofStr "epidermal growth factor receptor")
  (.cat [.ofStr "interleukin", sepOpt, digits1])))))

/-- Discovery pattern 5 (source line 146): full protein names, word-bounded. -/
def discP5 : Regex := .cat [.wb, .group discP5alts, .wb]

/-- Candidate cleaning `re.sub(r'\s+', ' ', match.strip())` (source line 116). -/
def cleanCand (m : List Char) : List Char := collapseWs (pyStrip m)

/-- One discovery pattern's contribution for one trial text: find all matches,
clean each, keep the valid ones uppercased (source lines 112-150). -/
def candsOf (pat : Regex) (text : List Char) : List (List Char) :=
  (reFindall true pat text).filterMap fun m =>
    let cleaned := cleanCand m
    if isValidTargetL cleaned then some (pyUpperL cleaned) else none

/-- All accepted candidate mentions one trial contributes to
`potential_targets` (source lines 105-150, the body of the discovery loop). -/
def extractCandidates (t : Trial) : List (List Char) :=
  let text := combinedText t
  candsOf discP1 text ++ candsOf discP2 text ++ candsOf discP3 text ++
    candsOf discP4 text ++ candsOf discP5 text

/-- Key normalisation of the frequency counter (source lines 155-156):
collapse whitespace, tighten hyphens. -/
def normKey (t : List Char) : List Char := tightenHyphens (collapseWs (pyStrip t))

/-- `Counter` update: increment the key's entry, inserting it at the end on
first occurrence (Python dicts preserve insertion order). -/
def incrKey : List (List Char × Nat) → List Char → List (List Char × Nat)
  | [], k => [(k, 1)]
  | (k', n) :: rest, k =>
    if k' = k then (k', n + 1) :: rest else (k', n) :: incrKey rest k

/-- The frequency counter over all candidate mentions (source lines 153-157). -/
def tally (l : List (List Char)) : List (List Char × Nat) :=
  l.foldl (fun acc t => incrKey acc (normKey t)) []

/-- Stable insertion into a count-descending list (an element is placed before
an existing one only when its count is strictly greater, so earlier elements
win ties, as in Python's stable `list.sort`). -/
def insDesc (x : List Char × Nat) : List (List Char × Nat) → List (List Char × Nat)
  | [] => [x]
  | y :: ys => if y.2 < x.2 then x :: y :: ys else y :: insDesc x ys

/-- Stable sort by descending count
(`valid_targets.sort(key=lambda x: x[1], reverse=True)`, source line 168). -/
def sortCountDesc (l : List (List Char × Nat)) : List (List Char × Nat) :=
  l.foldl (fun acc x => insDesc x acc) []

/-- One character of a built matching rule: a literal space or hyphen is
relaxed into the class `[-\s]?`, any other character stays a literal. -/
def charRule (c : Char) : Regex :=
  if c == ' ' || c == '-' then sepOpt else .chr c

/-- The matching rule built for a surviving key (source line 173): it models
`re.escape(target).replace(r'\ ', r'[-\s]?').replace(r'\-', r'[-\s]?')`,
compiled.  `re.escape` turns every character into a literal (escaping the
non-alphanumeric ones), and the two replacements relax every literal space and
hyphen into the class `[-\s]?`. -/
def buildRulePattern (k : List Char) : Regex :=
  k.foldr (fun c acc => .seq (charRule c) acc) .eps

/-- The dictionary-building loop over the sorted surviving candidates (source
lines 170-174), also producing the per-target report lines. -/
def discoverLoop (verbose : Bool) : List (List Char × Nat) → List (String × Regex) × List String
  | [] => ([], [])
  | (t, c) :: rest =>
    let p := discoverLoop verbose rest
    ((String.mk t, buildRulePattern t) :: p.1,
     (if verbose then ["  " ++ String.mk t ++ " mentioned " ++ toString c ++ " times"]
      else []) ++ p.2)

/-- `discover_molecular_targets` (source lines 87-179).  Returns the target
pattern map (an insertion-ordered association list, keys by descending
frequency) together with the progress log the function would print. -/
def discover_molecular_targets (df : List Trial) (min_frequency : Nat) (verbose : Bool) :
    List (String × Regex) × List String :=
  let potential := df.flatMap extractCandidates
  let counter := tally potential
  let headerLog :=
    if verbose then
      ["Discovered " ++ toString counter.length ++ " unique candidates",
       "Filtering for frequency >= " ++ toString min_frequency ++ "..."]
    else []
  let valid := counter.filter fun tc => min_frequency ≤ tc.2
  let sorted := sortCountDesc valid
  let lp := discoverLoop verbose sorted
  (lp.1,
   headerLog ++ lp.2 ++
     if verbose then ["Total targets discovered: " ++ toString lp.1.length] else [])

/-- The discovered map itself (`verbose` defaults to `True` in the source). -/
def discoverMap (df : List Trial) (min_frequency : Nat) : List (String × Regex) :=
  (discover_molecular_targets df min_frequency true).1

/-- Drug-code pattern `\b([A-Z]{2,}[-\s]?\d{2,})\b` (source line 194,
case-sensitive). -/
def codePat : Regex :=
  .cat [.wb, .group (.cat [Regex.rep2 (.cls .upperAZ), sepOpt, Regex.rep2 (.cls .digit)]), .wb]

/-- Monoclonal-antibody name pattern `\b([A-Z][a-z]+mab)\b` (source line 197,
IGNORECASE). -/
def mabPat : Regex :=
  .cat [.wb, .group (.cat [.cls .upperAZ, .plus (.cls .lowerAZ), .ofStr "mab"]), .wb]

/-- Treatment-plan pattern `Drug:\s*([^\n,;]+)` (source line 202, IGNORECASE). -/
def drugColonPat : Regex :=
  .cat [.ofStr "Drug:", .star (.cls .wsp), .group (.plus (.cls .noNlCommaSemi))]

/-- Qualifier pattern `^(Placebo|Experimental:|Active Comparator:)\s*`
(source line 210, IGNORECASE). -/
def qualifierPat : Regex :=
  .cat [.bol,
    .group (.alt (.ofStr "Placebo") (.alt (.ofStr "Experimental:") (.ofStr "Active Comparator:"))),
    .star (.cls .wsp)]

/-- `re.sub` of the anchored qualifier pattern with the empty string: drop the
matched leading qualifier, if any (source lines 210-211). -/
def stripQualifier (name : List Char) : List Char :=
  match (mrun true (bigFuel qualifierPat name) qualifierPat none name).head? with
  | some o => o.rem
  | none => name

/-- `extract_drug_name` (source lines 182-214). -/
def extract_drug_name (title treatment_plan : String) : String :=
  let code_match := reSearchGroup false codePat title.toList
  let mab_match := reSearchGroup true mabPat title.toList
  let treatment_match :=
    if hasSub "drug:".toList (pyLowerL treatment_plan.toList) then
      reSearchGroup true drugColonPat treatment_plan.toList
    else none
  match mab_match with
  | some w => String.mk w
  | none =>
    match code_match with
    | some w => String.mk w
    | none =>
      match treatment_match with
      | some w => String.mk (pyStrip (stripQualifier (pyStrip w)))
      | none => "Not specified"

/-- `\b(?:monoclonal\s+)?antibod(?:y|ies)\b|\bmab\b` (source line 243). -/
def abPat : Regex :=
  .alt (.cat [.wb, .opt (.cat [.ofStr "monoclonal", .plus (.cls .wsp)]),
      .ofStr "antibod", .alt (.ofStr "y") (.ofStr "ies"), .wb])
    (Regex.boundedLit "mab")

/-- `\bbispecific\b` (source line 244). -/
def bispecificPat : Regex := Regex.boundedLit "bispecific"

/-- `\binhibit` (source line 247). -/
def inhibitPat : Regex := .seq .wb (.ofStr "inhibit")

/-- `\bantagonist\b` (source line 249). -/
def antagonistPat : Regex := Regex.boundedLit "antagonist"

/-- `\bblock` (source line 251). -/
def blockPat : Regex := .seq .wb (.ofStr "block")

/-- `\bcar[-\s]?t\b|chimeric antigen receptor` (source line 256). -/
def cartPat : Regex :=
  .alt (.cat [.wb, .ofStr "car", sepOpt, .chr 't', .wb]) (.ofStr "chimeric antigen receptor")

/-- `\bkinase inhibitor\b` (source line 259). -/
def kinaseInhPat : Regex := Regex.boundedLit "kinase inhibitor"

/-- `\btyrosine kinase inhibitor\b|\btki\b` (source line 262). -/
def tkiPat : Regex :=
  .alt (Regex.boundedLit "tyrosine kinase inhibitor") (Regex.boundedLit "tki")

/-- `\bfusion protein\b` (source line 265). -/
def fusionPat : Regex := Regex.boundedLit "fusion protein"

/-- `\bagonist\b` (source line 268). -/
def agonistPat : Regex := Regex.boundedLit "agonist"

/-- `\bsmall molecule\b` (source line 271). -/
def smallMolPat : Regex := Regex.boundedLit "small molecule"

/-- `\bvaccine\b` (source line 274). -/
def vaccinePat : Regex := Regex.boundedLit "vaccine"

/-- `\breceptor\s+antagonist\b` (source line 277). -/
def recAntagPat : Regex :=
  .cat [.wb, .ofStr "receptor", .plus (.cls .wsp), .ofStr "antagonist", .wb]

/-- `\brecombinant\b.*\bprotein\b` (source line 280). -/
def recombPat : Regex :=
  .cat [.wb, .ofStr "recombinant", .wb, .star (.cls .anyDot), .wb, .ofStr "protein", .wb]

/-- The target-resolution loop of `extract_moa` (source lines 237-240): first
map entry whose rule matches wins, `"Unknown"` when none does. -/
def findTarget (text : List Char) : List (String × Regex) → String
  | [] => "Unknown"
  | (k, p) :: rest => if reSearchB true p text then k else findTarget text rest

/-- `extract_moa` (source lines 217-283). -/
def extract_moa (title objective treatment_plan : String)
    (target_patterns : List (String × Regex)) : String × String :=
  let ct := pyLowerL (title.toList ++ (' ' :: objective.toList) ++ (' ' :: treatment_plan.toList))
  let molecular_target := findTarget ct target_patterns
  let mechanism :=
    if reSearchB false abPat ct then
      let base :=
        if reSearchB false bispecificPat ct then "Bispecific monoclonal antibody"
        else "Monoclonal antibody"
      if molecular_target ≠ "Unknown" then
        if reSearchB false inhibitPat ct then molecular_target ++ " inhibitor - " ++ base
        else if reSearchB false antagonistPat ct then molecular_target ++ " antagonist - " ++ base
        else if reSearchB false blockPat ct then molecular_target ++ " blocker - " ++ base
        else molecular_target ++ " targeting - " ++ base
      else base
    else if reSearchB false cartPat ct then
      if molecular_target ≠ "Unknown" then molecular_target ++ " CAR-T cell therapy"
      else "CAR-T cell therapy"
    else if reSearchB false kinaseInhPat ct then
      if molecular_target ≠ "Unknown" then molecular_target ++ " kinase inhibitor"
      else "Kinase inhibitor"
    else if reSearchB false tkiPat ct then
      if molecular_target ≠ "Unknown" then molecular_target ++ " TKI"
      else "Tyrosine kinase inhibitor"
    else if reSearchB false fusionPat ct then
      if molecular_target ≠ "Unknown" then molecular_target ++ " fusion protein"
      else "Fusion protein"
    else if reSearchB false agonistPat ct then
      if molecular_target ≠ "Unknown" then molecular_target ++ " receptor agonist"
      else "Receptor agonist"
    else if reSearchB false smallMolPat ct then
      if molecular_target ≠ "Unknown" then molecular_target ++ " small molecule"
      else "Small molecule inhibitor"
    else if reSearchB false vaccinePat ct then "Vaccine"
    else if reSearchB false recAntagPat ct then molecular_target ++ " receptor antagonist"
    else if reSearchB false recombPat ct then
      if molecular_target ≠ "Unknown" then "Recombinant " ++ molecular_target
      else "Recombinant protein"
    else "Unknown"
  (molecular_target, mechanism)

/-- The biosimilar keyword patterns (source lines 301-304), in source order. -/
def biosimilarKeywords : List Regex :=
  [Regex.boundedLit "biosimilar",
   .cat [.wb, .ofStr "non", sepOpt, .ofStr "inferiority", .wb],
   Regex.boundedLit "equivalence",
   Regex.boundedLit "therapeutic equivalence",
   Regex.boundedLit "bioequivalence",
   Regex.boundedLit "reference product"]

/-- The innovative keyword patterns (source lines 311-316), in source order. -/
def innovativeKeywords : List Regex :=
  [Regex.boundedLit "versus placebo",
   .cat [.wb, .ofStr "placebo", .cls .sepSp, .ofStr "controlled", .wb],
   .cat [.wb, .ofStr "evaluate ", .opt (.ofStr "the "), .alt (.ofStr "safety") (.ofStr "efficacy"), .wb],
   Regex.boundedLit "novel",
   .cat [.wb, .ofStr "first", .cls .sepSp, .ofStr "in", .cls .sepSp, .ofStr "human", .wb],
   .cat [.wb, .ofStr "dose", .cls .sepSp, .ofStr "escalation", .wb],
   .cat [.wb, .ofStr "single", .star (.cls .anyDot), .ofStr "ascending", .star (.cls .anyDot), .ofStr "dose", .wb]]

/-- `classify_innovation_status` (source lines 286-322). -/
def classify_innovation_status (title objective treatment_plan : String) : String :=
  let ct := pyLowerL (title.toList ++ (' ' :: objective.toList) ++ (' ' :: treatment_plan.toList))
  if biosimilarKeywords.any (fun k => reSearchB false k ct) then "Biosimilar"
  else if innovativeKeywords.any (fun k => reSearchB false k ct) then "Innovative"
  else "Innovative"

/-- `categorize_trial` (source lines 325-359). -/
def categorize_trial (molecular_target mechanism innovation_status : String) : String :=
  let base :=
    if molecular_target = "Unknown" || mechanism = "Unknown" then "Other/Undefined"
    else
      let ml := pyLowerL mechanism.toList
      if hasSub "antibody".toList ml then "Antibody-based therapy"
      else if hasSub "kinase inhibitor".toList ml || hasSub "tki".toList ml then "Kinase inhibitor"
      else if hasSub "car-t".toList ml then "Cell therapy"
      else if hasSub "fusion protein".toList ml then "Fusion protein"
      else if hasSub "vaccine".toList ml then "Vaccine"
      else if hasSub "agonist".toList ml then "Receptor agonist"
      else if hasSub "recombinant".toList ml then "Recombinant protein"
      else "Other targeted therapy"
  base ++ " - " ++ innovation_status

/-- A per-trial classification result (the dictionary built at source
lines 382-388). -/
structure AnalysisResult where
  trialTitle : String
  drugName : String
  moa : String
  innovation : String
  category : String
deriving DecidableEq

/-- `analyze_single_trial` (source lines 362-388). -/
def analyze_single_trial (row : Trial) (target_patterns : List (String × Regex)) :
    AnalysisResult :=
  let drug_name := extract_drug_name row.title row.treatment_plan
  let tm := extract_moa row.title row.objective row.treatment_plan target_patterns
  let innovation_status := classify_innovation_status row.title row.objective row.treatment_plan
  let category := categorize_trial tm.1 tm.2 innovation_status
  ⟨row.title, drug_name, tm.1 ++ " - " ++ tm.2, innovation_status, category⟩

/-- The loop of `analyze_all_trials` (source lines 406-413), carrying the
row index and producing the progress log alongside the results. -/
def analyzeLoop (target_patterns : List (String × Regex)) (verbose : Bool) (total : Nat) :
    Nat → List Trial → List AnalysisResult × List String
  | _, [] => ([], [])
  | idx, row :: rest =>
    let r := analyze_single_trial row target_patterns
    let p := analyzeLoop target_patterns verbose total (idx + 1) rest
    (r :: p.1,
     (if verbose && (idx + 1) % 50 == 0 then
        ["Processed " ++ toString (idx + 1) ++ "/" ++ toString total ++ " trials..."]
      else []) ++ p.2)

/-- `analyze_all_trials` (source lines 391-415): the result rows together with
the progress log the function would print. -/
def analyze_all_trials (df : List Trial) (target_patterns : List (String × Regex))
    (verbose : Bool) : List AnalysisResult × List String :=
  analyzeLoop target_patterns verbose df.length 0 df

/-! ## Matcher lemmas -/

/-- The context character reached after scanning past `a`, starting from
context `pv` (the character just before `a`). -/
def lastO (pv : Option Char) : List Char → Option Char
  | [] => pv
  | c :: rest => lastO (some c) rest

theorem lastO_append (pv : Option Char) (a b : List Char) :
    lastO pv (a ++ b) = lastO (lastO pv a) b := by
  induction a generalizing pv with
  | nil => rfl
  | cons c a ih => simpa [lastO] using ih (some c)

/-- Outcomes only accumulate as the fuel grows. -/
theorem mrun_mono {ci : Bool} {f g : Nat} (hfg : f ≤ g) :
    ∀ {r : Regex} {pv : Option Char} {s : List Char} {o : MOut},
      o ∈ mrun ci f r pv s → o ∈ mrun ci g r pv s := by
  induction f generalizing g with
  | zero => intro r pv s o h; simp [mrun] at h
  | succ f ih =>
    intro r pv s o h
    obtain ⟨g', rfl⟩ : ∃ g', g = g' + 1 := ⟨g - 1, by omega⟩
    have hfg' : f ≤ g' := by omega
    cases r with
    | eps => simpa [mrun] using h
    | bol => simpa [mrun] using h
    | wb => simpa [mrun] using h
    | chr c =>
      cases s with
      | nil => simpa [mrun] using h
      | cons a rest => simpa [mrun] using h
    | cls cl =>
      cases s with
      | nil => simpa [mrun] using h
      | cons a rest => simpa [mrun] using h
    | alt a b =>
      simp only [mrun, List.mem_append] at h ⊢
      exact h.imp (ih hfg') (ih hfg')
    | seq a b =>
      simp only [mrun, List.mem_flatMap, List.mem_map] at h ⊢
      obtain ⟨o1, h1, o2, h2, rfl⟩ := h
      exact ⟨o1, ih hfg' h1, o2, ih hfg' h2, rfl⟩
    | group r =>
      simp only [mrun, List.mem_map] at h ⊢
      obtain ⟨o1, h1, rfl⟩ := h
      exact ⟨o1, ih hfg' h1, rfl⟩
    | star r =>
      simp only [mrun, List.mem_append, List.mem_flatMap, List.mem_filter,
        List.mem_map, List.mem_singleton] at h ⊢
      rcases h with ⟨o1, ⟨h1, hlen⟩, o2, h2, rfl⟩ | h
      · exact Or.inl ⟨o1, ⟨ih hfg' h1, hlen⟩, o2, ih hfg' h2, rfl⟩
      · exact Or.inr h

theorem mem_mrun_eps {ci : Bool} {f : Nat} (hf : 1 ≤ f) (pv : Option Char) (s : List Char) :
    (⟨s, pv, none⟩ : MOut) ∈ mrun ci f .eps pv s := by
  obtain ⟨f, rfl⟩ : ∃ g, f = g + 1 := ⟨f - 1, by omega⟩
  simp [mrun]

theorem mem_mrun_bol {ci : Bool} {f : Nat} (hf : 1 ≤ f) (s : List Char) :
    (⟨s, none, none⟩ : MOut) ∈ mrun ci f .bol none s := by
  obtain ⟨f, rfl⟩ : ∃ g, f = g + 1 := ⟨f - 1, by omega⟩
  simp [mrun]

theorem mem_mrun_wb {ci : Bool} {f : Nat} (hf : 1 ≤ f) {pv : Option Char} {s : List Char}
    (h : (isWordO pv != isWordO s.head?) = true) :
    (⟨s, pv, none⟩ : MOut) ∈ mrun ci f .wb pv s := by
  obtain ⟨f, rfl⟩ : ∃ g, f = g + 1 := ⟨f - 1, by omega⟩
  simp [mrun, h]

theorem mem_mrun_chr {ci : Bool} {f : Nat} (hf : 1 ≤ f) {c a : Char} {pv : Option Char}
    {rest : List Char} (h : chrTest ci c a = true) :
    (⟨rest, some a, none⟩ : MOut) ∈ mrun ci f (.chr c) pv (a :: rest) := by
  obtain ⟨f, rfl⟩ : ∃ g, f = g + 1 := ⟨f - 1, by omega⟩
  simp [mrun, h]

theorem mem_mrun_cls {ci : Bool} {f : Nat} (hf : 1 ≤ f) {cl : CharClass} {a : Char}
    {pv : Option Char} {rest : List Char} (h : clsTest ci cl a = true) :
    (⟨rest, some a, none⟩ : MOut) ∈ mrun ci f (.cls cl) pv (a :: rest) := by
  obtain ⟨f, rfl⟩ : ∃ g, f = g + 1 := ⟨f - 1, by omega⟩
  simp [mrun, h]

theorem mem_mrun_seq {ci : Bool} {f : Nat} (hf : 1 ≤ f) {a b : Regex} {pv : Option Char}
    {s : List Char} {o1 o2 : MOut} (h1 : o1 ∈ mrun ci (f - 1) a pv s)
    (h2 : o2 ∈ mrun ci (f - 1) b o1.pc o1.rem) :
    (⟨o2.rem, o2.pc, o2.cap <|> o1.cap⟩ : MOut) ∈ mrun ci f (.seq a b) pv s := by
  obtain ⟨f, rfl⟩ : ∃ g, f = g + 1 := ⟨f - 1, by omega⟩
  simp only [Nat.add_sub_cancel] at h1 h2
  simp only [mrun, List.mem_flatMap, List.mem_map]
  exact ⟨o1, h1, o2, h2, rfl⟩

theorem mem_mrun_alt_left {ci : Bool} {f : Nat} (hf : 1 ≤ f) {a b : Regex} {pv : Option Char}
    {s : List Char} {o : MOut} (h : o ∈ mrun ci (f - 1) a pv s) :
    o ∈ mrun ci f (.alt a b) pv s := by
  obtain ⟨f, rfl⟩ : ∃ g, f = g + 1 := ⟨f - 1, by omega⟩
  simp only [Nat.add_sub_cancel] at h
  simp only [mrun, List.mem_append]
  exact Or.inl h

theorem mem_mrun_alt_right {ci : Bool} {f : Nat} (hf : 1 ≤ f) {a b : Regex} {pv : Option Char}
    {s : List Char} {o : MOut} (h : o ∈ mrun ci (f - 1) b pv s) :
    o ∈ mrun ci f (.alt a b) pv s := by
  obtain ⟨f, rfl⟩ : ∃ g, f = g + 1 := ⟨f - 1, by omega⟩
  simp only [Nat.add_sub_cancel] at h
  simp only [mrun, List.mem_append]
  exact Or.inr h

theorem mem_mrun_star_zero {ci : Bool} {f : Nat} (hf : 1 ≤ f) (r : Regex) (pv : Option Char)
    (s : List Char) : (⟨s, pv, none⟩ : MOut) ∈ mrun ci f (.star r) pv s := by
  obtain ⟨f, rfl⟩ : ∃ g, f = g + 1 := ⟨f - 1, by omega⟩
  simp [mrun]

/-- An epsilon-like outcome through `r?`: skip the optional part. -/
theorem mem_mrun_opt_skip {ci : Bool} {f : Nat} (hf : 2 ≤ f) (r : Regex) (pv : Option Char)
    (s : List Char) : (⟨s, pv, none⟩ : MOut) ∈ mrun ci f (Regex.opt r) pv s := by
  exact mem_mrun_alt_right (by omega) (mem_mrun_eps (by omega) pv s)

/-- Matching a literal character list consumes exactly it (any flag: the
characters are equal). -/
theorem mem_mrun_ofStrL {ci : Bool} :
    ∀ (l : List Char) {f : Nat}, l.length + 2 ≤ f → ∀ (rest : List Char) (pv : Option Char),
      (⟨rest, lastO pv l, none⟩ : MOut) ∈ mrun ci f (.ofStrL l) pv (l ++ rest) := by
  intro l
  induction l with
  | nil =>
    intro f hf rest pv
    exact mem_mrun_eps (by omega) pv rest
  | cons c l ih =>
    intro f hf rest pv
    have h1 : (⟨l ++ rest, some c, none⟩ : MOut) ∈ mrun ci (f - 1) (.chr c) pv (c :: (l ++ rest)) :=
      mem_mrun_chr (by simp at hf; omega) (by simp [chrTest])
    have h2 : (⟨rest, lastO (some c) l, none⟩ : MOut) ∈
        mrun ci (f - 1) (.ofStrL l) (some c) (l ++ rest) :=
      ih (by simp at hf; omega) rest (some c)
    have := mem_mrun_seq (f := f) (by simp at hf; omega) h1 h2
    simpa [Regex.ofStrL, lastO] using this

/-- Conversely, an outcome of a literal list (matched case-sensitively) can
only be the literal itself. -/
theorem mrun_ofStrL_elim :
    ∀ (l : List Char) {f : Nat} {pv : Option Char} {s : List Char} {o : MOut},
      o ∈ mrun false f (.ofStrL l) pv s →
      s = l ++ o.rem ∧ o.pc = lastO pv l ∧ o.cap = none := by
  intro l
  induction l with
  | nil =>
    intro f pv s o h
    cases f with
    | zero => simp [mrun] at h
    | succ f =>
      simp only [Regex.ofStrL, List.foldr_nil, mrun, List.mem_singleton] at h
      subst h
      simp [lastO]
  | cons c l ih =>
    intro f pv s o h
    cases f with
    | zero => simp [mrun] at h
    | succ f =>
      simp only [Regex.ofStrL, List.foldr_cons, mrun, List.mem_flatMap, List.mem_map] at h
      obtain ⟨o1, h1, o2, h2, rfl⟩ := h
      cases f with
      | zero => simp [mrun] at h1
      | succ f =>
        cases s with
        | nil => simp [mrun] at h1
        | cons a s' =>
          simp only [mrun] at h1
          by_cases hc : chrTest false c a = true
          · simp only [hc, if_true, List.mem_singleton] at h1
            subst h1
            have ha : a = c := by
              have := hc
              simp [chrTest] at this
              exact this
            subst ha
            obtain ⟨hs, hpc, hcap⟩ := ih h2
            have hs' : s' = l ++ o2.rem := hs
            have hpc' : o2.pc = lastO (some a) l := hpc
            have hcap' : o2.cap = none := hcap
            subst hs'
            refine ⟨by simp, by simpa [lastO] using hpc', by simp [hcap']⟩
          · simp [eq_false_of_ne_true hc] at h1

theorem searchAux_of_mem {ci : Bool} {fuel : Nat} {r : Regex} :
    ∀ (a : List Char) {pv : Option Char} {b : List Char},
      mrun ci fuel r (lastO pv a) b ≠ [] → searchAux ci fuel r pv (a ++ b) = true := by
  intro a
  induction a with
  | nil =>
    intro pv b h
    cases b with
    | nil => simpa [searchAux, lastO, List.isEmpty_iff] using h
    | cons c rest => simp [searchAux, lastO, List.isEmpty_iff] at h ⊢; exact Or.inl h
  | cons c a ih =>
    intro pv b h
    simp only [List.cons_append, searchAux, Bool.or_eq_true]
    exact Or.inr (@ih (some c) _ h)

theorem searchAux_decomp {ci : Bool} {fuel : Nat} {r : Regex} :
    ∀ {s : List Char} {pv : Option Char}, searchAux ci fuel r pv s = true →
      ∃ a b, s = a ++ b ∧ mrun ci fuel r (lastO pv a) b ≠ [] := by
  intro s
  induction s with
  | nil =>
    intro pv h
    exact ⟨[], [], rfl, by simpa [searchAux, lastO, List.isEmpty_iff] using h⟩
  | cons c rest ih =>
    intro pv h
    simp only [searchAux, Bool.or_eq_true, List.isEmpty_iff] at h
    rcases h with h | h
    · exact ⟨[], c :: rest, rfl, by simpa [lastO] using h⟩
    · obtain ⟨a, b, rfl, hm⟩ := ih h
      exact ⟨c :: a, b, rfl, by simpa [lastO] using hm⟩

theorem mrun_seq_elim {ci : Bool} {f : Nat} {a b : Regex} {pv : Option Char} {s : List Char}
    {o : MOut} (h : o ∈ mrun ci f (.seq a b) pv s) :
    ∃ g, f = g + 1 ∧ ∃ o1 ∈ mrun ci g a pv s, ∃ o2 ∈ mrun ci g b o1.pc o1.rem,
      o = ⟨o2.rem, o2.pc, o2.cap <|> o1.cap⟩ := by
  cases f with
  | zero => simp [mrun] at h
  | succ g =>
    refine ⟨g, rfl, ?_⟩
    simp only [mrun, List.mem_flatMap, List.mem_map] at h
    obtain ⟨o1, h1, o2, h2, rfl⟩ := h
    exact ⟨o1, h1, o2, h2, rfl⟩

theorem mrun_wb_elim {ci : Bool} {f : Nat} {pv : Option Char} {s : List Char} {o : MOut}
    (h : o ∈ mrun ci f .wb pv s) :
    o = ⟨s, pv, none⟩ ∧ (isWordO pv != isWordO s.head?) = true := by
  cases f with
  | zero => simp [mrun] at h
  | succ g =>
    simp only [mrun] at h
    by_cases hb : (isWordO pv != isWordO s.head?) = true
    · simp only [hb, if_true, List.mem_singleton] at h
      exact ⟨h, hb⟩
    · simp [eq_false_of_ne_true hb] at h

/-- A successful word-bounded-literal search decomposes the text around an
occurrence of the literal with word boundaries on both sides. -/
theorem reSearchB_boundedLit_elim {w : String} {s : List Char}
    (h : reSearchB false (Regex.boundedLit w) s = true) :
    ∃ a b, s = a ++ (w.toList ++ b) ∧
      (isWordO (lastO none a) != isWordO (w.toList ++ b).head?) = true ∧
      (isWordO (lastO (lastO none a) w.toList) != isWordO b.head?) = true := by
  obtain ⟨a, b0, rfl, hm⟩ := searchAux_decomp h
  obtain ⟨o, ho⟩ := List.exists_mem_of_ne_nil _ hm
  obtain ⟨g, _, o1, h1, o2, h2, rfl⟩ := mrun_seq_elim ho
  obtain ⟨rfl, bd1⟩ := mrun_wb_elim h1
  obtain ⟨g', _, o21, h21, o22, h22, _⟩ := mrun_seq_elim h2
  obtain ⟨hsplit, hpc, _⟩ := mrun_ofStrL_elim w.toList h21
  obtain ⟨rfl, bd2⟩ := mrun_wb_elim h22
  have hsplit' : b0 = w.toList ++ o21.rem := hsplit
  have hpc' : o21.pc = lastO (lastO none a) w.toList := hpc
  refine ⟨a, o21.rem, by rw [hsplit'], by rwa [hsplit'] at bd1, ?_⟩
  rwa [hpc'] at bd2

/-- Conversely, an occurrence of the literal with word boundaries on both
sides makes the word-bounded-literal search succeed. -/
theorem reSearchB_boundedLit_of (w : String) (a b : List Char)
    (h1 : (isWordO (lastO none a) != isWordO (w.toList ++ b).head?) = true)
    (h2 : (isWordO (lastO (lastO none a) w.toList) != isWordO b.head?) = true) :
    reSearchB false (Regex.boundedLit w) (a ++ (w.toList ++ b)) = true := by
  apply searchAux_of_mem a
  set F := bigFuel (Regex.boundedLit w) (a ++ (w.toList ++ b)) with hF
  have hFge : w.toList.length + 4 ≤ F := by
    simp only [hF, bigFuel, List.length_append]
    omega
  apply List.ne_nil_of_mem (a := (⟨b, lastO (lastO none a) w.toList,
    (none <|> none : Option (List Char)) <|> none⟩ : MOut))
  have hwb1 : (⟨w.toList ++ b, lastO none a, none⟩ : MOut) ∈
      mrun false (F - 1) .wb (lastO none a) (w.toList ++ b) :=
    mem_mrun_wb (by omega) h1
  have hlits : (⟨b, lastO (lastO none a) w.toList, none⟩ : MOut) ∈
      mrun false (F - 1 - 1) (.ofStrL w.toList) (lastO none a) (w.toList ++ b) :=
    mem_mrun_ofStrL w.toList (by omega) b (lastO none a)
  have hwb2 : (⟨b, lastO (lastO none a) w.toList, none⟩ : MOut) ∈
      mrun false (F - 1 - 1) .wb (lastO (lastO none a) w.toList) b :=
    mem_mrun_wb (by omega) h2
  have hinner := mem_mrun_seq (f := F - 1) (by omega) hlits hwb2
  have houter := mem_mrun_seq (f := F) (by omega) hwb1 hinner
  simpa [Regex.boundedLit, Regex.ofStr] using houter

/-- Any text in which `\btyrosine kinase inhibitor\b` matches also matches
`\bkinase inhibitor\b`: the occurrence's own suffix provides the match. -/
theorem kinase_search_of_tyrosine {s : List Char}
    (h : reSearchB false (Regex.boundedLit "tyrosine kinase inhibitor") s = true) :
    reSearchB false (Regex.boundedLit "kinase inhibitor") s = true := by
  obtain ⟨a, b, rfl, _, bd2⟩ := reSearchB_boundedLit_elim h
  have hsplit : ("tyrosine kinase inhibitor".toList : List Char) =
      "tyrosine ".toList ++ "kinase inhibitor".toList := by rfl
  have h2' : (isWordO (lastO (lastO none (a ++ "tyrosine ".toList)) "kinase inhibitor".toList)
      != isWordO b.head?) = true := bd2
  have h1' : (isWordO (lastO none (a ++ "tyrosine ".toList))
      != isWordO ("kinase inhibitor".toList ++ b).head?) = true := by
    rw [lastO_append]
    rfl
  have := reSearchB_boundedLit_of "kinase inhibitor" (a ++ "tyrosine ".toList) b h1' h2'
  simpa [hsplit, List.append_assoc] using this

theorem charRule_sep {c : Char} (h : (c == ' ' || c == '-') = true) : charRule c = sepOpt := by
  unfold charRule
  rw [if_pos h]

theorem charRule_lit {c : Char} (h : (c == ' ' || c == '-') = false) :
    charRule c = .chr c := by
  unfold charRule
  rw [if_neg (by simp [h])]

theorem buildRule_cons (c : Char) (k : List Char) :
    buildRulePattern (c :: k) = .seq (charRule c) (buildRulePattern k) := rfl

/-- `realizesB k t`: `t` is a surface variant of key `k` in which every
space/hyphen position of `k` is realized by zero or one space-or-hyphen
character (the `[-\s]?` wildcard of the built rule) and every other character
matches case-insensitively. -/
def realizesB : List Char → List Char → Bool
  | [], t => t.isEmpty
  | c :: k, [] => (c == ' ' || c == '-') && realizesB k []
  | c :: k, d :: t' =>
    if c == ' ' || c == '-' then
      realizesB k (d :: t') || ((d == '-' || isPySpace d) && realizesB k t')
    else
      (pyLowerChar d == pyLowerChar c) && realizesB k t'

/-- The built rule matches (at the start) any surface variant of its key. -/
theorem mem_mrun_buildRule :
    ∀ (k t : List Char), realizesB k t = true →
      ∀ {f : Nat}, 3 * k.length + 2 ≤ f → ∀ (rest : List Char) (pv : Option Char),
      ∃ o ∈ mrun true f (buildRulePattern k) pv (t ++ rest), o.rem = rest := by
  intro k
  induction k with
  | nil =>
    intro t h f hf rest pv
    have ht : t = [] := by
      cases t with
      | nil => rfl
      | cons d t' => simp [realizesB] at h
    subst ht
    exact ⟨⟨rest, pv, none⟩, mem_mrun_eps (by omega) pv rest, rfl⟩
  | cons c k ih =>
    intro t h f hf rest pv
    simp only [List.length_cons] at hf
    cases hcb : (c == ' ' || c == '-') with
    | true =>
      rw [buildRule_cons, charRule_sep hcb]
      have hre : realizesB k t = true ∨
          ∃ d t', t = d :: t' ∧ (d == '-' || isPySpace d) = true ∧ realizesB k t' = true := by
        cases t with
        | nil =>
          rw [realizesB, hcb] at h
          exact Or.inl (by simpa using h)
        | cons d t' =>
          rw [realizesB, if_pos hcb] at h
          rcases Bool.or_eq_true _ _ |>.mp h with h1 | h1
          · exact Or.inl h1
          · obtain ⟨hd, hk⟩ := Bool.and_eq_true _ _ |>.mp h1
            exact Or.inr ⟨d, t', rfl, hd, hk⟩
      rcases hre with h1 | ⟨d, t', rfl, hd, hk⟩
      · obtain ⟨o, ho, hrem⟩ := ih t h1 (f := f - 1) (by omega) rest pv
        have hskip : (⟨t ++ rest, pv, none⟩ : MOut) ∈
            mrun true (f - 1) sepOpt pv (t ++ rest) :=
          mem_mrun_opt_skip (by omega) _ pv _
        have hcomp := mem_mrun_seq (f := f) (by omega) hskip ho
        exact ⟨⟨o.rem, o.pc, o.cap <|> none⟩, hcomp, by simpa using hrem⟩
      · obtain ⟨o, ho, hrem⟩ := ih t' hk (f := f - 1) (by omega) rest (some d)
        have hone : (⟨t' ++ rest, some d, none⟩ : MOut) ∈
            mrun true (f - 1) sepOpt pv (d :: (t' ++ rest)) := by
          apply mem_mrun_alt_left (by omega)
          exact mem_mrun_cls (by omega) (by simp [clsTest, CharClass.test, hd])
        have hcomp := mem_mrun_seq (f := f) (by omega) hone ho
        exact ⟨⟨o.rem, o.pc, o.cap <|> none⟩, hcomp, by simpa using hrem⟩
    | false =>
      rw [buildRule_cons, charRule_lit hcb]
      cases t with
      | nil =>
        rw [realizesB, hcb] at h
        simp at h
      | cons d t' =>
        rw [realizesB, if_neg (by simp [hcb])] at h
        obtain ⟨hd, hk⟩ := Bool.and_eq_true _ _ |>.mp h
        obtain ⟨o, ho, hrem⟩ := ih t' hk (f := f - 1) (by omega) rest (some d)
        have hone : (⟨t' ++ rest, some d, none⟩ : MOut) ∈
            mrun true (f - 1) (.chr c) pv (d :: (t' ++ rest)) :=
          mem_mrun_chr (by omega) (by simp [chrTest, hd])
        have hcomp := mem_mrun_seq (f := f) (by omega) hone ho
        exact ⟨⟨o.rem, o.pc, o.cap <|> none⟩, hcomp, by simpa using hrem⟩

theorem buildRule_size_ge (k : List Char) : 2 * k.length + 1 ≤ (buildRulePattern k).size := by
  induction k with
  | nil => simp [buildRulePattern, Regex.size]
  | cons c k ih =>
    rw [buildRule_cons]
    cases hcb : (c == ' ' || c == '-') with
    | true =>
      rw [charRule_sep hcb]
      simp only [Regex.size, sepOpt, Regex.opt, List.length_cons]
      omega
    | false =>
      rw [charRule_lit hcb]
      simp only [Regex.size, List.length_cons]
      omega

/-- Searching the built rule succeeds on any text containing a surface variant
of the key. -/
theorem reSearchB_buildRule_of {k t : List Char} (h : realizesB k t = true)
    (pre post : List Char) :
    reSearchB true (buildRulePattern k) (pre ++ (t ++ post)) = true := by
  apply searchAux_of_mem pre
  have hsize := buildRule_size_ge k
  have hFge : 3 * k.length + 2 ≤ bigFuel (buildRulePattern k) (pre ++ (t ++ post)) := by
    simp only [bigFuel]
    omega
  obtain ⟨o, ho, _⟩ := mem_mrun_buildRule k t h hFge post (lastO none pre)
  exact List.ne_nil_of_mem ho

/-- The hyphenated surface form of a key: every space becomes a hyphen. -/
def formHyphen (k : List Char) : List Char := k.map fun c => if c == ' ' then '-' else c

/-- The spaced surface form of a key: every hyphen becomes a space. -/
def formSpaced (k : List Char) : List Char := k.map fun c => if c == '-' then ' ' else c

/-- The concatenated surface form of a key: spaces and hyphens removed. -/
def formConcat (k : List Char) : List Char := k.filter fun c => !(c == ' ' || c == '-')

theorem realizesB_formHyphen (k : List Char) : realizesB k (formHyphen k) = true := by
  induction k with
  | nil => rfl
  | cons c k ih =>
    cases hcb : (c == ' ' || c == '-') with
    | true =>
      have himg : formHyphen (c :: k) = '-' :: formHyphen k := by
        rcases Bool.or_eq_true _ _ |>.mp hcb with h | h
        · have hc : c = ' ' := by simpa using h
          subst hc
          rfl
        · have hc : c = '-' := by simpa using h
          subst hc
          rfl
      rw [himg, realizesB, if_pos hcb]
      simp [ih]
    | false =>
      have hsp : (c == ' ') = false := (Bool.or_eq_false_iff.mp hcb).1
      have himg : formHyphen (c :: k) = c :: formHyphen k := by
        simp only [formHyphen, List.map_cons, hsp]
        rfl
      rw [himg, realizesB, if_neg (by simp [hcb])]
      simp [ih]

theorem realizesB_formSpaced (k : List Char) : realizesB k (formSpaced k) = true := by
  induction k with
  | nil => rfl
  | cons c k ih =>
    cases hcb : (c == ' ' || c == '-') with
    | true =>
      have himg : formSpaced (c :: k) = ' ' :: formSpaced k := by
        rcases Bool.or_eq_true _ _ |>.mp hcb with h | h
        · have hc : c = ' ' := by simpa using h
          subst hc
          rfl
        · have hc : c = '-' := by simpa using h
          subst hc
          rfl
      rw [himg, realizesB, if_pos hcb]
      simp [ih, isPySpace]
    | false =>
      have hsp : (c == '-') = false := (Bool.or_eq_false_iff.mp hcb).2
      have himg : formSpaced (c :: k) = c :: formSpaced k := by
        simp only [formSpaced, List.map_cons, hsp]
        rfl
      rw [himg, realizesB, if_neg (by simp [hcb])]
      simp [ih]

theorem realizesB_formConcat (k : List Char) : realizesB k (formConcat k) = true := by
  induction k with
  | nil => rfl
  | cons c k ih =>
    cases hcb : (c == ' ' || c == '-') with
    | true =>
      have himg : formConcat (c :: k) = formConcat k := by
        simp only [formConcat, List.filter_cons, hcb]
        rfl
      rw [himg]
      cases hfc : formConcat k with
      | nil =>
        rw [realizesB, hcb]
        have := ih
        rw [hfc] at this
        simpa using this
      | cons d t' =>
        rw [realizesB, if_pos hcb]
        have := ih
        rw [hfc] at this
        simp [this]
    | false =>
      have himg : formConcat (c :: k) = c :: formConcat k := by
        simp only [formConcat, List.filter_cons, hcb]
        rfl
      rw [himg, realizesB, if_neg (by simp [hcb])]
      simp [ih]

/-! ## Counter, sorting and map-construction lemmas -/

/-- Count lookup in the association-list model of the `Counter`. -/
def lookupCnt : List (List Char × Nat) → List Char → Option Nat
  | [], _ => none
  | (k, n) :: rest, X => if k = X then some n else lookupCnt rest X

/-- How many mentions in `l` tally under key `X`. -/
def countCand (X : List Char) (l : List (List Char)) : Nat :=
  l.countP fun t => decide (normKey t = X)

theorem lookupCnt_mem {acc : List (List Char × Nat)} {X : List Char} {v : Nat}
    (h : lookupCnt acc X = some v) : (X, v) ∈ acc := by
  induction acc with
  | nil => simp [lookupCnt] at h
  | cons p rest ih =>
    obtain ⟨k, n⟩ := p
    simp only [lookupCnt] at h
    by_cases hk : k = X
    · subst hk
      rw [if_pos rfl] at h
      injection h with h
      subst h
      exact List.mem_cons_self _ _
    · rw [if_neg hk] at h
      exact List.mem_cons_of_mem _ (ih h)

theorem incrKey_lookup_eq {acc : List (List Char × Nat)} {X : List Char} :
    lookupCnt (incrKey acc X) X = some ((lookupCnt acc X).getD 0 + 1) := by
  induction acc with
  | nil => simp [incrKey, lookupCnt]
  | cons p rest ih =>
    obtain ⟨k, n⟩ := p
    by_cases hk : k = X
    · subst hk
      simp [incrKey, lookupCnt]
    · simp only [incrKey, if_neg hk, lookupCnt]
      exact ih

theorem incrKey_lookup_ne {acc : List (List Char × Nat)} {k0 X : List Char} (hne : k0 ≠ X) :
    lookupCnt (incrKey acc k0) X = lookupCnt acc X := by
  induction acc with
  | nil => simp [incrKey, lookupCnt, if_neg hne]
  | cons p rest ih =>
    obtain ⟨k, n⟩ := p
    by_cases hk : k = k0
    · subst hk
      simp [incrKey, lookupCnt, if_neg hne]
    · simp only [incrKey, if_neg hk, lookupCnt]
      by_cases hx : k = X
      · rw [if_pos hx, if_pos hx]
      · rw [if_neg hx, if_neg hx]
        exact ih

theorem incrKey_mem_shape {acc : List (List Char × Nat)} {k0 X : List Char} {n : Nat}
    (h : (X, n) ∈ incrKey acc k0) : (∃ m, (X, m) ∈ acc) ∨ X = k0 := by
  induction acc with
  | nil =>
    simp only [incrKey, List.mem_singleton] at h
    injection h with h1 _
    exact Or.inr h1
  | cons p rest ih =>
    obtain ⟨k, m⟩ := p
    simp only [incrKey] at h
    by_cases hk : k = k0
    · rw [if_pos hk] at h
      rcases List.mem_cons.mp h with h | h
      · injection h with h1 _
        subst h1
        exact Or.inl ⟨m + 1 - 1 + m - m, by subst hk; simp⟩
      · exact Or.inl ⟨n, List.mem_cons_of_mem _ h⟩
    · rw [if_neg hk] at h
      rcases List.mem_cons.mp h with h | h
      · injection h with h1 h2
        subst h1
        exact Or.inl ⟨n, by simp [h2]⟩
      · rcases ih h with ⟨m', hm'⟩ | h2
        · exact Or.inl ⟨m', List.mem_cons_of_mem _ hm'⟩
        · exact Or.inr h2

theorem tallyFold_mem_of_lookup :
    ∀ (l : List (List Char)) (acc : List (List Char × Nat)) (X : List Char) (v : Nat),
      lookupCnt acc X = some v →
      (X, v + countCand X l) ∈ l.foldl (fun acc t => incrKey acc (normKey t)) acc := by
  intro l
  induction l with
  | nil =>
    intro acc X v h
    simpa [countCand] using lookupCnt_mem h
  | cons t l ih =>
    intro acc X v h
    simp only [List.foldl_cons]
    by_cases ht : normKey t = X
    · have h2 := @incrKey_lookup_eq acc X
      rw [h] at h2
      rw [ht]
      have hrec := ih (incrKey acc X) X (v + 1) (by simpa using h2)
      have hc : countCand X (t :: l) = countCand X l + 1 := by
        simp [countCand, List.countP_cons, ht]
      rw [hc, show v + (countCand X l + 1) = (v + 1) + countCand X l by omega]
      exact hrec
    · have h2 : lookupCnt (incrKey acc (normKey t)) X = some v := by
        rw [incrKey_lookup_ne ht]
        exact h
      have hc : countCand X (t :: l) = countCand X l := by
        simp [countCand, List.countP_cons, ht]
      rw [hc]
      exact ih _ X v h2

theorem tallyFold_mem_of_none :
    ∀ (l : List (List Char)) (acc : List (List Char × Nat)) (X : List Char),
      lookupCnt acc X = none → 1 ≤ countCand X l →
      (X, countCand X l) ∈ l.foldl (fun acc t => incrKey acc (normKey t)) acc := by
  intro l
  induction l with
  | nil =>
    intro acc X h hc
    simp [countCand] at hc
  | cons t l ih =>
    intro acc X h hc
    simp only [List.foldl_cons]
    by_cases ht : normKey t = X
    · have h1 : lookupCnt (incrKey acc (normKey t)) X = some 1 := by
        rw [ht, incrKey_lookup_eq, h]
        rfl
      have hrec := tallyFold_mem_of_lookup l _ X 1 h1
      have hc2 : countCand X (t :: l) = 1 + countCand X l := by
        simp only [countCand, List.countP_cons, ht]
        simp
        omega
      rw [hc2]
      exact hrec
    · have h2 : lookupCnt (incrKey acc (normKey t)) X = none := by
        rw [incrKey_lookup_ne ht]
        exact h
      have hc2 : countCand X (t :: l) = countCand X l := by
        simp [countCand, List.countP_cons, ht]
      rw [hc2] at hc ⊢
      exact ih _ X h2 hc

theorem tally_mem_of_pos {l : List (List Char)} {X : List Char}
    (h : 1 ≤ countCand X l) : (X, countCand X l) ∈ tally l :=
  tallyFold_mem_of_none l [] X rfl h

theorem tallyFold_key_shape :
    ∀ (l : List (List Char)) (acc : List (List Char × Nat)) (X : List Char) (n : Nat),
      (X, n) ∈ l.foldl (fun acc t => incrKey acc (normKey t)) acc →
      (∃ m, (X, m) ∈ acc) ∨ ∃ y ∈ l, X = normKey y := by
  intro l
  induction l with
  | nil =>
    intro acc X n h
    exact Or.inl ⟨n, h⟩
  | cons t l ih =>
    intro acc X n h
    simp only [List.foldl_cons] at h
    rcases ih _ X n h with ⟨m, hm⟩ | ⟨y, hy, rfl⟩
    · rcases incrKey_mem_shape hm with ⟨m', hm'⟩ | rfl
      · exact Or.inl ⟨m', hm'⟩
      · exact Or.inr ⟨t, List.mem_cons_self _ _, rfl⟩
    · exact Or.inr ⟨y, List.mem_cons_of_mem _ hy, rfl⟩

theorem tally_key_shape {l : List (List Char)} {X : List Char} {n : Nat}
    (h : (X, n) ∈ tally l) : ∃ y ∈ l, X = normKey y := by
  rcases tallyFold_key_shape l [] X n h with ⟨m, hm⟩ | h2
  · simp at hm
  · exact h2

theorem mem_insDesc {x y : List Char × Nat} {l : List (List Char × Nat)} :
    y ∈ insDesc x l ↔ y = x ∨ y ∈ l := by
  induction l with
  | nil => simp [insDesc]
  | cons z l ih =>
    simp only [insDesc]
    by_cases h : z.2 < x.2
    · rw [if_pos h]
      simp [List.mem_cons]
    · rw [if_neg h]
      simp [List.mem_cons, ih]
      tauto

theorem mem_sortFold {l acc : List (List Char × Nat)} {y : List Char × Nat} :
    y ∈ l.foldl (fun acc x => insDesc x acc) acc ↔ y ∈ acc ∨ y ∈ l := by
  induction l generalizing acc with
  | nil => simp
  | cons x l ih =>
    simp only [List.foldl_cons, ih, mem_insDesc, List.mem_cons]
    tauto

theorem mem_sortCountDesc {l : List (List Char × Nat)} {y : List Char × Nat} :
    y ∈ sortCountDesc l ↔ y ∈ l := by
  simp [sortCountDesc, mem_sortFold]

theorem discoverLoop_fst_mem {v : Bool} {l : List (List Char × Nat)} {t : List Char} {c : Nat}
    (h : (t, c) ∈ l) : (String.mk t, buildRulePattern t) ∈ (discoverLoop v l).1 := by
  induction l with
  | nil => simp at h
  | cons p rest ih =>
    obtain ⟨t', c'⟩ := p
    simp only [discoverLoop]
    rcases List.mem_cons.mp h with h | h
    · injection h with h1 h2
      subst h1
      exact List.mem_cons_self _ _
    · exact List.mem_cons_of_mem _ (ih h)

theorem discoverLoop_fst_shape {v : Bool} {l : List (List Char × Nat)} {k : String} {r : Regex}
    (h : (k, r) ∈ (discoverLoop v l).1) :
    ∃ t c, (t, c) ∈ l ∧ k = String.mk t ∧ r = buildRulePattern t := by
  induction l with
  | nil => simp [discoverLoop] at h
  | cons p rest ih =>
    obtain ⟨t', c'⟩ := p
    simp only [discoverLoop] at h
    rcases List.mem_cons.mp h with h | h
    · injection h with h1 h2
      exact ⟨t', c', List.mem_cons_self _ _, h1, h2⟩
    · obtain ⟨t, c, hm, hk, hr⟩ := ih h
      exact ⟨t, c, List.mem_cons_of_mem _ hm, hk, hr⟩

theorem findTarget_ne_of_match {text : List Char} :
    ∀ {l : List (String × Regex)},
      (∃ kp ∈ l, reSearchB true kp.2 text = true) →
      (∀ kp ∈ l, kp.1 ≠ ("Unknown" : String)) →
      findTarget text l ≠ "Unknown" := by
  intro l
  induction l with
  | nil =>
    intro h _
    simp at h
  | cons kp rest ih =>
    intro hex hkeys
    obtain ⟨k, p⟩ := kp
    simp only [findTarget]
    by_cases hs : reSearchB true p text = true
    · rw [if_pos hs]
      exact hkeys (k, p) (List.mem_cons_self _ _)
    · rw [if_neg hs]
      apply ih
      · obtain ⟨kp', hm, hs'⟩ := hex
        rcases List.mem_cons.mp hm with rfl | hm'
        · exact absurd hs' hs
        · exact ⟨kp', hm', hs'⟩
      · intro kp' hm'
        exact hkeys kp' (List.mem_cons_of_mem _ hm')

/-! ## Case-invariance of discovered keys -/

/-- Uppercasing never produces a lowercase `n` (the distinguishing character
of the sentinel `"Unknown"`). -/
theorem pyUpperChar_ne_n (b : Char) : pyUpperChar b ≠ 'n' := by
  unfold pyUpperChar
  split <;> simp_all

theorem pyUpperL_ne_n (y : List Char) : ∀ c ∈ pyUpperL y, c ≠ 'n' := by
  intro c hc
  simp only [pyUpperL, List.mem_map] at hc
  obtain ⟨b, _, rfl⟩ := hc
  exact pyUpperChar_ne_n b

theorem mem_pyStrip {s : List Char} {c : Char} (h : c ∈ pyStrip s) : c ∈ s := by
  simp only [pyStrip, List.mem_reverse] at h
  have h2 : c ∈ (s.dropWhile isPySpace).reverse := (List.dropWhile_sublist _).mem h
  rw [List.mem_reverse] at h2
  exact (List.dropWhile_sublist _).mem h2

theorem mem_collapseWs {s : List Char} {c : Char} (h : c ∈ collapseWs s) :
    c = ' ' ∨ c ∈ s := by
  induction s with
  | nil => simp [collapseWs] at h
  | cons c0 rest ih =>
    cases rest with
    | nil =>
      simp only [collapseWs, List.mem_singleton] at h
      by_cases hsp : isPySpace c0 = true
      · rw [if_pos hsp] at h
        exact Or.inl h
      · rw [if_neg hsp] at h
        exact Or.inr (by simp [h])
    | cons d rest' =>
      simp only [collapseWs] at h
      by_cases hsp : (isPySpace c0 && isPySpace d) = true
      · rw [if_pos hsp] at h
        rcases ih h with h | h
        · exact Or.inl h
        · exact Or.inr (List.mem_cons_of_mem _ h)
      · rw [if_neg hsp] at h
        rcases List.mem_cons.mp h with h | h
        · by_cases hc0 : isPySpace c0 = true
          · rw [if_pos hc0] at h
            exact Or.inl h
          · rw [if_neg hc0] at h
            exact Or.inr (by simp [h])
        · rcases ih h with h | h
          · exact Or.inl h
          · exact Or.inr (List.mem_cons_of_mem _ h)

theorem mem_tightenHyphensAux :
    ∀ (fuel : Nat) (s : List Char) {c : Char}, c ∈ tightenHyphensAux fuel s →
      c = '-' ∨ c ∈ s := by
  intro fuel
  induction fuel with
  | zero =>
    intro s c h
    exact Or.inr h
  | succ fuel ih =>
    intro s c h
    cases s with
    | nil => simp [tightenHyphensAux] at h
    | cons c0 rest =>
      simp only [tightenHyphensAux] at h
      set afterWs := (c0 :: rest).drop ((c0 :: rest).takeWhile isPySpace).length with hA
      by_cases hh : afterWs.head? = some '-'
      · rw [if_pos hh] at h
        rcases List.mem_cons.mp h with h | h
        · exact Or.inl h
        · rcases ih _ h with h | h
          · exact Or.inl h
          · have h1 : c ∈ afterWs.drop 1 := (List.dropWhile_sublist _).mem h
            have h2 : c ∈ afterWs := (List.drop_sublist _ _).mem h1
            have h3 : c ∈ c0 :: rest := by
              rw [hA] at h2
              exact (List.drop_sublist _ _).mem h2
            exact Or.inr h3
      · rw [if_neg hh] at h
        rcases List.mem_cons.mp h with h | h
        · exact Or.inr (by simp [h])
        · rcases ih rest h with h | h
          · exact Or.inl h
          · exact Or.inr (List.mem_cons_of_mem _ h)

/-- No character of a normalised key of an uppercased candidate is a
lowercase `n`. -/
theorem normKey_pyUpperL_ne_n (y : List Char) : ∀ c ∈ normKey (pyUpperL y), c ≠ 'n' := by
  intro c hc
  simp only [normKey, tightenHyphens] at hc
  rcases mem_tightenHyphensAux _ _ hc with rfl | hc2
  · simp
  · rcases mem_collapseWs hc2 with rfl | hc3
    · simp
    · exact pyUpperL_ne_n y c (mem_pyStrip hc3)

theorem extractCandidates_shape {tr : Trial} {x : List Char} (h : x ∈ extractCandidates tr) :
    ∃ y, x = pyUpperL y := by
  simp only [extractCandidates, List.mem_append] at h
  have core : ∀ {pat : Regex} {text : List Char}, x ∈ candsOf pat text → ∃ y, x = pyUpperL y := by
    intro pat text hx
    simp only [candsOf, List.mem_filterMap] at hx
    obtain ⟨m, _, hm⟩ := hx
    by_cases hv : isValidTargetL (cleanCand m) = true
    · rw [if_pos hv] at hm
      injection hm with hm
      exact ⟨cleanCand m, hm.symm⟩
    · rw [if_neg hv] at hm
      cases hm
  rcases h with (((h | h) | h) | h) | h <;> exact core h

/-- Every entry of the discovered map carries the rule built from its own key,
and the key is the normalisation of an uppercased accepted candidate. -/
theorem discoverMap_entry {df : List Trial} {mf : Nat} {k : String} {r : Regex}
    (h : (k, r) ∈ discoverMap df mf) :
    r = buildRulePattern k.toList ∧ ∀ c ∈ k.toList, c ≠ 'n' := by
  have h' : (k, r) ∈ (discoverLoop true (sortCountDesc
      ((tally (df.flatMap extractCandidates)).filter fun tc => mf ≤ tc.2))).1 := by
    simpa [discoverMap, discover_molecular_targets] using h
  obtain ⟨t, c, hm, rfl, rfl⟩ := discoverLoop_fst_shape h'
  refine ⟨rfl, ?_⟩
  have hm2 := mem_sortCountDesc.mp hm
  have hm3 := List.mem_of_mem_filter hm2
  obtain ⟨y, hy, rfl⟩ := tally_key_shape hm3
  obtain ⟨tr, _, hyc⟩ := List.mem_flatMap.mp hy
  obtain ⟨z, rfl⟩ := extractCandidates_shape hyc
  exact normKey_pyUpperL_ne_n z

/-- No key of the discovered map is the sentinel string `"Unknown"`. -/
theorem discoverMap_key_ne_unknown {df : List Trial} {mf : Nat} {k : String} {r : Regex}
    (h : (k, r) ∈ discoverMap df mf) : k ≠ "Unknown" := by
  intro hk
  subst hk
  exact (discoverMap_entry h).2 'n' (by decide) rfl

/-- Membership of a surviving candidate in the discovered map. -/
theorem discoverMap_mem_of_count {df : List Trial} {mf : Nat} {X : List Char}
    (hmf : 1 ≤ mf) (hcnt : mf ≤ countCand X (df.flatMap extractCandidates)) :
    (String.mk X, buildRulePattern X) ∈ discoverMap df mf := by
  have hpos : 1 ≤ countCand X (df.flatMap extractCandidates) := le_trans hmf hcnt
  have htal := tally_mem_of_pos hpos
  have hfil : (X, countCand X (df.flatMap extractCandidates)) ∈
      (tally (df.flatMap extractCandidates)).filter fun tc => mf ≤ tc.2 :=
    List.mem_filter.mpr ⟨htal, by simpa using hcnt⟩
  have hsort := mem_sortCountDesc.mpr hfil
  have := discoverLoop_fst_mem (v := true) hsort
  simpa [discoverMap, discover_molecular_targets] using this

/-! ## Lemmas for threshold monotonicity and verbosity noninterference -/

theorem discoverLoop_fst_length (v : Bool) (l : List (List Char × Nat)) :
    ((discoverLoop v l).1).length = l.length := by
  induction l with
  | nil => rfl
  | cons p rest ih =>
    obtain ⟨t, c⟩ := p
    simp [discoverLoop, ih]

theorem insDesc_length (x : List Char × Nat) (l : List (List Char × Nat)) :
    (insDesc x l).length = l.length + 1 := by
  induction l with
  | nil => rfl
  | cons z l ih =>
    simp only [insDesc]
    by_cases h : z.2 < x.2
    · rw [if_pos h]
      simp
    · rw [if_neg h]
      simp [ih]

theorem sortFold_length :
    ∀ (l acc : List (List Char × Nat)),
      (l.foldl (fun acc x => insDesc x acc) acc).length = acc.length + l.length := by
  intro l
  induction l with
  | nil => simp
  | cons x l ih =>
    intro acc
    simp only [List.foldl_cons, ih, insDesc_length, List.length_cons]
    omega

theorem sortCountDesc_length (l : List (List Char × Nat)) :
    (sortCountDesc l).length = l.length := by
  simp [sortCountDesc, sortFold_length]

theorem filter_length_mono_of_imp {α : Type} {p q : α → Bool}
    (himp : ∀ a, p a = true → q a = true) :
    ∀ l : List α, (l.filter p).length ≤ (l.filter q).length := by
  intro l
  induction l with
  | nil => simp
  | cons a l ih =>
    by_cases hp : p a = true
    · simp only [List.filter_cons, hp, himp a hp, if_true, List.length_cons]
      exact Nat.add_le_add_right ih 1
    · have hp' : p a = false := eq_false_of_ne_true hp
      by_cases hq : q a = true
      · simp only [List.filter_cons, hp', hq, if_true, Bool.false_eq_true, if_false,
          List.length_cons]
        exact le_trans ih (Nat.le_succ _)
      · have hq' : q a = false := eq_false_of_ne_true hq
        simp only [List.filter_cons, hp', hq', Bool.false_eq_true, if_false]
        exact ih

theorem discoverLoop_fst_verbose (l : List (List Char × Nat)) :
    (discoverLoop true l).1 = (discoverLoop false l).1 := by
  induction l with
  | nil => rfl
  | cons p rest ih =>
    obtain ⟨t, c⟩ := p
    simp [discoverLoop, ih]

theorem analyzeLoop_fst_verbose (tp : List (String × Regex)) (total : Nat) :
    ∀ (l : List Trial) (idx : Nat),
      (analyzeLoop tp true total idx l).1 = (analyzeLoop tp false total idx l).1 := by
  intro l
  induction l with
  | nil => intro idx; rfl
  | cons row rest ih =>
    intro idx
    simp [analyzeLoop, ih]

/-! ## The PD validator pattern matches any string starting with `PD` -/

theorem eq_cons_cons_of_take_two {l : List Char} {a b : Char} (h : l.take 2 = [a, b]) :
    ∃ rest, l = a :: b :: rest := by
  cases l with
  | nil => simp at h
  | cons x l1 =>
    cases l1 with
    | nil => simp at h
    | cons y l2 =>
      simp [List.take] at h
      exact ⟨l2, by simp [h.1, h.2]⟩

/-- Everything after the literal `PD` in `^PD[-\s]?[L1]?\d*` is optional, so
the pattern matches at the start of any string beginning with `PD`. -/
theorem pd_pat_matches (rest : List Char) {f : Nat} (hf : 20 ≤ f) :
    mrun false f pdValidPat none ('P' :: 'D' :: rest) ≠ [] := by
  have hbol : (⟨'P' :: 'D' :: rest, none, none⟩ : MOut) ∈
      mrun false (f - 1) .bol none ('P' :: 'D' :: rest) :=
    mem_mrun_bol (by omega) _
  have hstar : (⟨rest, lastO none "PD".toList, none⟩ : MOut) ∈
      mrun false (f - 1 - 1 - 1 - 1 - 1) digits0 (lastO none "PD".toList) rest :=
    mem_mrun_star_zero (by omega) _ _ _
  have heps : (⟨rest, lastO none "PD".toList, none⟩ : MOut) ∈
      mrun false (f - 1 - 1 - 1 - 1 - 1) .eps (lastO none "PD".toList) rest :=
    mem_mrun_eps (by omega) _ _
  have s5 := mem_mrun_seq (f := f - 1 - 1 - 1 - 1) (by omega) hstar heps
  have hoptL : (⟨rest, lastO none "PD".toList, none⟩ : MOut) ∈
      mrun false (f - 1 - 1 - 1 - 1) (Regex.opt (.cls (.oneOf ['L', '1'])))
        (lastO none "PD".toList) rest :=
    mem_mrun_opt_skip (by omega) _ _ _
  have s4 := mem_mrun_seq (f := f - 1 - 1 - 1) (by omega) hoptL s5
  have hsep : (⟨rest, lastO none "PD".toList, none⟩ : MOut) ∈
      mrun false (f - 1 - 1 - 1) sepOpt (lastO none "PD".toList) rest :=
    mem_mrun_opt_skip (by omega) _ _ _
  have s3 := mem_mrun_seq (f := f - 1 - 1) (by omega) hsep s4
  have hpd : (⟨rest, lastO none "PD".toList, none⟩ : MOut) ∈
      mrun false (f - 1 - 1) (.ofStr "PD") none ('P' :: 'D' :: rest) :=
    mem_mrun_ofStrL "PD".toList
      (by have h2 : ("PD".toList).length = 2 := rfl; omega) rest none
  have s2 := mem_mrun_seq (f := f - 1) (by omega) hpd s3
  have s1 := mem_mrun_seq (f := f) (by omega) hbol s2
  exact List.ne_nil_of_mem s1

/-! ## Claim theorems -/

/-- C1: the claim says `is_valid_target` accepts `"EGFR"`.  The code rejects
it: the missing comma at source lines 69-70 joins `r'^VASCULAR ENDOTHELIAL'`
and `r'^EGFR'` into the single dead pattern `^VASCULAR ENDOTHELIAL^EGFR`
(its mid-pattern `^` can never match after consumed text), and no other
pattern matches `EGFR`, even though the candidate passes the noise and length
gates.  Evaluating the code at the failing input: -/
theorem is_valid_target_rejects_EGFR :
    is_valid_target "EGFR" = false ∧
    noiseWords.contains (pyStrip (pyUpperL "EGFR".toList)) = false ∧
    (2 ≤ "EGFR".length ∧ "EGFR".length ≤ 30) ∧
    (validPatterns.any fun p => reMatchB false p "EGFR".toList) = false := by
  decide

/-- C6: `classify_innovation_status` returns `"Biosimilar"` whenever a
biosimilar keyword matches the combined text, regardless of innovative
keywords, and returns `"Innovative"` otherwise — both when an innovative
keyword matches and by default when nothing matches. -/
theorem innovation_biosimilar_precedence (title objective treatment_plan : String) :
    ((biosimilarKeywords.any fun k => reSearchB false k
        (pyLowerL (title.toList ++ (' ' :: objective.toList) ++
          (' ' :: treatment_plan.toList)))) = true →
      classify_innovation_status title objective treatment_plan = "Biosimilar") ∧
    ((biosimilarKeywords.any fun k => reSearchB false k
        (pyLowerL (title.toList ++ (' ' :: objective.toList) ++
          (' ' :: treatment_plan.toList)))) = false →
      classify_innovation_status title objective treatment_plan = "Innovative") := by
  constructor
  · intro h
    simp only [classify_innovation_status]
    rw [if_pos h]
  · intro h
    simp only [classify_innovation_status]
    rw [if_neg (by rw [h]; exact Bool.false_ne_true), ite_self]

/-- Witness for C6 at concrete inputs: a biosimilar keyword match and the
no-keyword default. -/
theorem innovation_biosimilar_precedence_witness :
    (biosimilarKeywords.any fun k => reSearchB false k
      (pyLowerL ("a biosimilar study".toList ++ (' ' :: "".toList) ++
        (' ' :: "".toList)))) = true ∧
    classify_innovation_status "a biosimilar study" "" "" = "Biosimilar" ∧
    classify_innovation_status "nothing" "" "" = "Innovative" :=
  ⟨by decide,
   (innovation_biosimilar_precedence "a biosimilar study" "" "").1 (by decide),
   (innovation_biosimilar_precedence "nothing" "" "").2 (by decide)⟩

/-- C7: raising `min_frequency` never increases the number of keys in the
discovered map. -/
theorem discovery_monotone_min_frequency (df : List Trial) (a b : Nat) (hab : a ≤ b) :
    (discoverMap df b).length ≤ (discoverMap df a).length := by
  have key : ∀ mf : Nat, (discoverMap df mf).length =
      ((tally (df.flatMap extractCandidates)).filter fun tc => mf ≤ tc.2).length := by
    intro mf
    simp [discoverMap, discover_molecular_targets, discoverLoop_fst_length,
      sortCountDesc_length]
  rw [key a, key b]
  apply filter_length_mono_of_imp
  intro tc htc
  simp only [decide_eq_true_eq] at htc ⊢
  omega

/-- Witness for C7 at a concrete corpus and thresholds `1 ≤ 2`. -/
theorem discovery_monotone_min_frequency_witness :
    (1 : Nat) ≤ 2 ∧
    (discoverMap [⟨"anti-IL-6 anti-IL-6", "", ""⟩] 2).length ≤
      (discoverMap [⟨"anti-IL-6 anti-IL-6", "", ""⟩] 1).length :=
  ⟨by decide, discovery_monotone_min_frequency [⟨"anti-IL-6 anti-IL-6", "", ""⟩] 1 2 (by decide)⟩

/-- C8: the `verbose` flag only affects the printed log, never the returned
map of `discover_molecular_targets` nor the result rows of
`analyze_all_trials`. -/
theorem verbosity_noninterference (df : List Trial) (mf : Nat)
    (tp : List (String × Regex)) :
    (discover_molecular_targets df mf true).1 = (discover_molecular_targets df mf false).1 ∧
    (analyze_all_trials df tp true).1 = (analyze_all_trials df tp false).1 := by
  constructor
  · simp [discover_molecular_targets, discoverLoop_fst_verbose]
  · simp [analyze_all_trials, analyzeLoop_fst_verbose]

/-- C9: any candidate whose uppercased trimmed form starts with the two
letters `PD` and passes the noise-word, mostly-noise and length gates is
accepted by `is_valid_target`: everything after `PD` in the pattern
`^PD[-\s]?[L1]?\d*` is optional, so no digit or `L` is required. -/
theorem pd_prefix_accepted (t : String)
    (hpd : (pyStrip (pyUpperL t.toList)).take 2 = ['P', 'D'])
    (hnoise : noiseWords.contains (pyStrip (pyUpperL t.toList)) = false)
    (hwords : ((pySplit (pyStrip (pyUpperL t.toList))).length > 1 &&
        decide ((pySplit (pyStrip (pyUpperL t.toList))).length - 1 ≤
          (pySplit (pyStrip (pyUpperL t.toList))).countP fun w =>
            noiseWords.contains w)) = false)
    (hlen : 2 ≤ (pyStrip (pyUpperL t.toList)).length ∧
      (pyStrip (pyUpperL t.toList)).length ≤ 30) :
    is_valid_target t = true := by
  obtain ⟨rest, hrest⟩ := eq_cons_cons_of_take_two hpd
  unfold is_valid_target isValidTargetL
  simp only [hnoise, Bool.false_eq_true, if_false, hwords]
  rw [if_neg (show ¬((decide ((pyStrip (pyUpperL t.toList)).length < 2) ||
      decide ((pyStrip (pyUpperL t.toList)).length > 30)) = true) by
    simp only [Bool.or_eq_true, decide_eq_true_eq, not_or, not_lt, gt_iff_lt]
    omega)]
  apply List.any_eq_true.mpr
  refine ⟨pdValidPat, by simp [validPatterns], ?_⟩
  rw [hrest]
  simp only [reMatchB, Bool.not_eq_true']
  cases hml : mrun false (bigFuel pdValidPat ('P' :: 'D' :: rest)) pdValidPat none
      ('P' :: 'D' :: rest) with
  | nil => exact absurd hml (pd_pat_matches rest (by simp only [bigFuel]; omega))
  | cons o os => rfl

/-- Witness for C9 at the concrete candidate `"PDX"` (no digit, no `L`). -/
theorem pd_prefix_accepted_witness :
    (pyStrip (pyUpperL "PDX".toList)).take 2 = ['P', 'D'] ∧
    is_valid_target "PDX" = true :=
  ⟨by decide, pd_prefix_accepted "PDX" (by decide) (by decide) (by decide) (by decide)⟩

/-- C10: whenever the phrase alternative `\btyrosine kinase inhibitor\b` of
the TKI branch would match the combined text, and the earlier antibody and
CAR-T branches do not fire, `extract_moa` returns the `kinase inhibitor`
branch's mechanism — the occurrence always also satisfies the earlier
`\bkinase inhibitor\b` check — and never a TKI-branch mechanism. -/
theorem tki_phrase_branch_shadowed (title objective treatment_plan : String)
    (tp : List (String × Regex))
    (htyr : reSearchB false (Regex.boundedLit "tyrosine kinase inhibitor")
      (pyLowerL (title.toList ++ (' ' :: objective.toList) ++
        (' ' :: treatment_plan.toList))) = true)
    (hab : reSearchB false abPat (pyLowerL (title.toList ++ (' ' :: objective.toList) ++
      (' ' :: treatment_plan.toList))) = false)
    (hcart : reSearchB false cartPat (pyLowerL (title.toList ++ (' ' :: objective.toList) ++
      (' ' :: treatment_plan.toList))) = false) :
    (extract_moa title objective treatment_plan tp).2 =
      (if (extract_moa title objective treatment_plan tp).1 ≠ "Unknown" then
        (extract_moa title objective treatment_plan tp).1 ++ " kinase inhibitor"
       else "Kinase inhibitor") ∧
    (extract_moa title objective treatment_plan tp).2 ≠
      (extract_moa title objective treatment_plan tp).1 ++ " TKI" ∧
    ((extract_moa title objective treatment_plan tp).1 ≠ "Tyrosine" →
      (extract_moa title objective treatment_plan tp).2 ≠ "Tyrosine kinase inhibitor") := by
  have hkin : reSearchB false kinaseInhPat
      (pyLowerL (title.toList ++ (' ' :: objective.toList) ++
        (' ' :: treatment_plan.toList))) = true :=
    kinase_search_of_tyrosine htyr
  have h1 : (extract_moa title objective treatment_plan tp).1 =
      findTarget (pyLowerL (title.toList ++ (' ' :: objective.toList) ++
        (' ' :: treatment_plan.toList))) tp := rfl
  have h2 : (extract_moa title objective treatment_plan tp).2 =
      (if (extract_moa title objective treatment_plan tp).1 ≠ "Unknown" then
        (extract_moa title objective treatment_plan tp).1 ++ " kinase inhibitor"
       else "Kinase inhibitor") := by
    simp only [extract_moa]
    rw [if_neg (by rw [hab]; exact Bool.false_ne_true),
      if_neg (by rw [hcart]; exact Bool.false_ne_true),
      if_pos hkin]
  refine ⟨h2, ?_, ?_⟩
  · rw [h2]
    by_cases htgt : (extract_moa title objective treatment_plan tp).1 = "Unknown"
    · rw [if_neg (by simpa using htgt), htgt]
      decide
    · rw [if_pos htgt]
      intro heq
      have hlenq := congrArg String.length heq
      rw [String.length_append, String.length_append] at hlenq
      have e1 : (" kinase inhibitor" : String).length = 17 := rfl
      have e2 : (" TKI" : String).length = 4 := rfl
      omega
  · intro hne
    rw [h2]
    by_cases htgt : (extract_moa title objective treatment_plan tp).1 = "Unknown"
    · rw [if_neg (by simpa using htgt)]
      decide
    · rw [if_pos htgt]
      intro heq
      apply hne
      have hsplit : ("Tyrosine kinase inhibitor" : String) =
          "Tyrosine" ++ " kinase inhibitor" := rfl
      rw [hsplit] at heq
      have hdata := congrArg String.data heq
      rw [String.data_append, String.data_append] at hdata
      have hcancel := List.append_cancel_right hdata
      exact String.ext hcancel

/-- Witness for C10 at a concrete trial with an empty target map. -/
theorem tki_phrase_branch_shadowed_witness :
    reSearchB false (Regex.boundedLit "tyrosine kinase inhibitor")
      (pyLowerL ("a tyrosine kinase inhibitor study".toList ++ (' ' :: "".toList) ++
        (' ' :: "".toList))) = true ∧
    (extract_moa "a tyrosine kinase inhibitor study" "" "" []).2 = "Kinase inhibitor" := by
  refine ⟨by decide, ?_⟩
  have h := tki_phrase_branch_shadowed "a tyrosine kinase inhibitor study" "" "" []
    (by decide) (by decide) (by decide)
  have h1 : (extract_moa "a tyrosine kinase inhibitor study" "" "" []).1 = "Unknown" := rfl
  rw [h.1, h1]
  simp

/-- C3: end-to-end scenario: the anti-IL-6 trial, analysed with a target map
containing IL-6, yields drug name `"XYZ-123"`, target `"IL-6"`, a mechanism
containing `"Monoclonal antibody"`, innovation `"Innovative"` and category
`"Antibody-based therapy - Innovative"`. -/
theorem end_to_end_il6_scenario :
    (analyze_single_trial
        ⟨"A Study of Anti-IL-6 Monoclonal Antibody XYZ-123 in Rheumatoid Arthritis",
         "Evaluate safety of XYZ-123 versus placebo", "Drug: XYZ-123"⟩
        [("IL-6", buildRulePattern "IL-6".toList)]).drugName = "XYZ-123" ∧
    (extract_moa "A Study of Anti-IL-6 Monoclonal Antibody XYZ-123 in Rheumatoid Arthritis"
        "Evaluate safety of XYZ-123 versus placebo" "Drug: XYZ-123"
        [("IL-6", buildRulePattern "IL-6".toList)]).1 = "IL-6" ∧
    hasSub "Monoclonal antibody".toList
      ((extract_moa "A Study of Anti-IL-6 Monoclonal Antibody XYZ-123 in Rheumatoid Arthritis"
        "Evaluate safety of XYZ-123 versus placebo" "Drug: XYZ-123"
        [("IL-6", buildRulePattern "IL-6".toList)]).2).toList = true ∧
    (analyze_single_trial
        ⟨"A Study of Anti-IL-6 Monoclonal Antibody XYZ-123 in Rheumatoid Arthritis",
         "Evaluate safety of XYZ-123 versus placebo", "Drug: XYZ-123"⟩
        [("IL-6", buildRulePattern "IL-6".toList)]).innovation = "Innovative" ∧
    (analyze_single_trial
        ⟨"A Study of Anti-IL-6 Monoclonal Antibody XYZ-123 in Rheumatoid Arthritis",
         "Evaluate safety of XYZ-123 versus placebo", "Drug: XYZ-123"⟩
        [("IL-6", buildRulePattern "IL-6".toList)]).category =
      "Antibody-based therapy - Innovative" := by
  decide

/-- C4 counterexample: with an empty title and a treatment plan that is
exactly `"drug:"`, the plan contains `"drug:"` (and the title has no mab or
drug-code token), but the extraction pattern `Drug:\s*([^\n,;]+)` needs at
least one character after the marker, so the code returns the sentinel
`"Not specified"` rather than the (empty) text after the marker that the
claim describes. -/
theorem drug_name_claim_counterexample :
    reSearchGroup true mabPat ("" : String).toList = none ∧
    reSearchGroup false codePat ("" : String).toList = none ∧
    hasSub "drug:".toList (pyLowerL ("drug:" : String).toList) = true ∧
    extract_drug_name "" "drug:" = "Not specified" ∧
    ("Not specified" : String) ≠ "" := by
  decide

/-- C4 (amended): `extract_drug_name` precedence at return time.  A title
token matching the mab pattern wins; otherwise a drug-code token; otherwise,
when the plan contains `"drug:"` and the pattern `Drug:\s*([^\n,;]+)`
captures text after the marker, that text stripped of a leading
Placebo/Experimental:/Active Comparator: qualifier and of surrounding
whitespace; otherwise the sentinel `"Not specified"`. -/
theorem drug_name_precedence (title treatment_plan : String) :
    (∀ w, reSearchGroup true mabPat title.toList = some w →
      extract_drug_name title treatment_plan = String.mk w) ∧
    (reSearchGroup true mabPat title.toList = none →
      ∀ w, reSearchGroup false codePat title.toList = some w →
        extract_drug_name title treatment_plan = String.mk w) ∧
    (reSearchGroup true mabPat title.toList = none →
      reSearchGroup false codePat title.toList = none →
      hasSub "drug:".toList (pyLowerL treatment_plan.toList) = true →
      ∀ w, reSearchGroup true drugColonPat treatment_plan.toList = some w →
        extract_drug_name title treatment_plan =
          String.mk (pyStrip (stripQualifier (pyStrip w)))) ∧
    (reSearchGroup true mabPat title.toList = none →
      reSearchGroup false codePat title.toList = none →
      (hasSub "drug:".toList (pyLowerL treatment_plan.toList) = false ∨
        reSearchGroup true drugColonPat treatment_plan.toList = none) →
      extract_drug_name title treatment_plan = "Not specified") := by
  refine ⟨?_, ?_, ?_, ?_⟩
  · intro w hw
    simp only [extract_drug_name, hw]
  · intro hmab w hw
    simp only [extract_drug_name, hmab, hw]
  · intro hmab hcode hd w hw
    simp only [extract_drug_name, hmab, hcode, hd, if_true, hw]
  · intro hmab hcode hd
    rcases hd with hd | hd
    · simp only [extract_drug_name, hmab, hcode, hd, Bool.false_eq_true, if_false]
    · simp only [extract_drug_name, hmab, hcode, hd, ite_self]

/-- Witness for C4 (amended) at the mab case. -/
theorem drug_name_precedence_witness :
    reSearchGroup true mabPat ("A Tocilizumab Study" : String).toList =
      some "Tocilizumab".toList ∧
    extract_drug_name "A Tocilizumab Study" "" = "Tocilizumab" :=
  ⟨by decide, by
    have h := (drug_name_precedence "A Tocilizumab Study" "").1 "Tocilizumab".toList (by decide)
    simpa using h⟩

/-- C5: every key of the discovered map occurring with a space or hyphen has
a rule matching (case-insensitively) its hyphenated, spaced and concatenated
surface forms. -/
theorem discovered_rule_matches_surface_forms (df : List Trial) (mf : Nat)
    (key : String) (rule : Regex)
    (hmem : (key, rule) ∈ discoverMap df mf)
    (hsep : (key.toList.any fun c => c == ' ' || c == '-') = true) :
    reSearchB true rule (formHyphen key.toList) = true ∧
    reSearchB true rule (formSpaced key.toList) = true ∧
    reSearchB true rule (formConcat key.toList) = true := by
  obtain ⟨hrule, -⟩ := discoverMap_entry hmem
  subst hrule
  refine ⟨?_, ?_, ?_⟩
  · have h := reSearchB_buildRule_of (realizesB_formHyphen key.toList) [] []
    simpa using h
  · have h := reSearchB_buildRule_of (realizesB_formSpaced key.toList) [] []
    simpa using h
  · have h := reSearchB_buildRule_of (realizesB_formConcat key.toList) [] []
    simpa using h

/-- Witness for C5 at a concrete corpus that discovers `IL-6`. -/
theorem discovered_rule_matches_surface_forms_witness :
    ("IL-6", buildRulePattern "IL-6".toList) ∈
      discoverMap [⟨"anti-IL-6 anti-IL-6", "", ""⟩] 2 ∧
    (("IL-6" : String).toList.any fun c => c == ' ' || c == '-') = true ∧
    reSearchB true (buildRulePattern "IL-6".toList) (formHyphen "IL-6".toList) = true ∧
    reSearchB true (buildRulePattern "IL-6".toList) (formSpaced "IL-6".toList) = true ∧
    reSearchB true (buildRulePattern "IL-6".toList) (formConcat "IL-6".toList) = true := by
  have h := discovered_rule_matches_surface_forms [⟨"anti-IL-6 anti-IL-6", "", ""⟩] 2
    "IL-6" (buildRulePattern "IL-6".toList) (by decide) (by decide)
  exact ⟨by decide, by decide, h.1, h.2.1, h.2.2⟩

/-- C2 counterexample: this trial contributes two mentions (the
`min_frequency`) of the single accepted candidate `BAFF RECEPTOR` — each
captured with a double space — yet the relaxed rule `BAFF[-\s]?RECEPTOR`
cannot span two separator characters, so feeding the discovered map back
into `extract_moa` on the very same trial resolves no target. -/
theorem roundtrip_counterexample :
    2 ≤ countCand "BAFF RECEPTOR".toList
      (extractCandidates ⟨"anti-BAFF  receptor", "anti-BAFF  receptor", ""⟩) ∧
    (extract_moa "anti-BAFF  receptor" "anti-BAFF  receptor" ""
      (discoverMap [⟨"anti-BAFF  receptor", "anti-BAFF  receptor", ""⟩] 2)).1 =
      "Unknown" := by
  decide

/-- C2 (amended): feeding the discovered map back into `extract_moa` resolves
a non-`"Unknown"` target for every trial of the corpus that contributed at
least `min_frequency` (≥ 1) mentions of a single accepted candidate, provided
the trial's lowercased combined text contains a surface variant of that
candidate in which every internal space/hyphen is realized by at most one
space-or-hyphen character (`realizesB`). -/
theorem roundtrip_amended (df : List Trial) (mf : Nat) (tr : Trial) (X : List Char)
    (hmf : 1 ≤ mf) (htr : tr ∈ df)
    (hcnt : mf ≤ countCand X (extractCandidates tr))
    (hsurf : ∃ pre t post,
      pyLowerL (tr.title.toList ++ (' ' :: tr.objective.toList) ++
        (' ' :: tr.treatment_plan.toList)) = pre ++ (t ++ post) ∧
      realizesB X t = true) :
    (extract_moa tr.title tr.objective tr.treatment_plan (discoverMap df mf)).1 ≠
      "Unknown" := by
  have hcorpus : mf ≤ countCand X (df.flatMap extractCandidates) := by
    obtain ⟨l1, l2, rfl⟩ := List.append_of_mem htr
    rw [List.flatMap_append, List.flatMap_cons]
    simp only [countCand, List.countP_append] at hcnt ⊢
    omega
  have hmem := discoverMap_mem_of_count hmf hcorpus
  show findTarget (pyLowerL (tr.title.toList ++ (' ' :: tr.objective.toList) ++
    (' ' :: tr.treatment_plan.toList))) (discoverMap df mf) ≠ "Unknown"
  apply findTarget_ne_of_match
  · obtain ⟨pre, t, post, heq, hreal⟩ := hsurf
    refine ⟨(String.mk X, buildRulePattern X), hmem, ?_⟩
    show reSearchB true (buildRulePattern X) _ = true
    rw [heq]
    exact reSearchB_buildRule_of hreal pre post
  · intro kp hkp
    obtain ⟨k, p⟩ := kp
    exact discoverMap_key_ne_unknown hkp

/-- Witness for C2 (amended) at a concrete corpus discovering `IL-6`. -/
theorem roundtrip_amended_witness :
    (1 : Nat) ≤ 2 ∧
    (⟨"anti-IL-6 anti-IL-6", "", ""⟩ : Trial) ∈ [(⟨"anti-IL-6 anti-IL-6", "", ""⟩ : Trial)] ∧
    2 ≤ countCand "IL-6".toList (extractCandidates ⟨"anti-IL-6 anti-IL-6", "", ""⟩) ∧
    (extract_moa "anti-IL-6 anti-IL-6" "" ""
      (discoverMap [⟨"anti-IL-6 anti-IL-6", "", ""⟩] 2)).1 ≠ "Unknown" := by
  refine ⟨by decide, by decide, by decide, ?_⟩
  exact roundtrip_amended [⟨"anti-IL-6 anti-IL-6", "", ""⟩] 2
    ⟨"anti-IL-6 anti-IL-6", "", ""⟩ "IL-6".toList (by decide) (by decide) (by decide)
    ⟨"anti-".toList, "il-6".toList, " anti-il-6  ".toList, by decide, by decide⟩
